import Mathlib

/-!
# oracle-search: distribution controller, query server and CPD builder

A shallow embedding of the parts of `warthog/programs/fifo_auto.cpp`,
`warthog/programs/make_cpd_auto.cpp`, `warthog/programs/gen_distribute_conf.cpp`
and of the distribution controller they use, together with the properties
proved about them.

Conventions of the embedding:
* node ids, block ids, worker ids and counts are natural numbers;
* `size_t` arithmetic is taken modulo `2 ^ 64`, `unsigned int` counters
  modulo `2 ^ 32`;
* an operation that throws or has undefined behaviour in C++ returns `none`;
* `std::string` values are lists of characters.
-/

namespace distribute

/-- The two partition methods of the distribution controller. -/
inductive PartMethod where
  | MOD
  | DIV
  deriving DecidableEq, Repr

/-- Modelled from the spec: `distribution_controller.h` is not part of the
sources. The controller is built as `DistributeController(num_nodes,
maxworker, wid)`; `set_method(method, key)` installs the partition method and
its key. -/
structure DistributeController where
  nodenum : Nat
  maxworker : Nat
  wid : Nat
  method : PartMethod := PartMethod.MOD
  partkey : Nat := 1
  deriving DecidableEq, Repr

/-- Modelled from the spec: the constructor `DistributeController(num_nodes,
maxworker, wid)` of the missing `distribution_controller.h`. -/
def DistributeController.new (num_nodes maxworker wid : Nat) : DistributeController :=
  { nodenum := num_nodes, maxworker := maxworker, wid := wid }

/-- Modelled from the spec: `set_method(method, key)` of the missing
`distribution_controller.h` "installs one of `MOD`/`DIV`". -/
def DistributeController.set_method (dc : DistributeController) (m : PartMethod) (key : Nat) :
    DistributeController :=
  { dc with method := m, partkey := key }

/-- Modelled from the spec: `get_blockid` of the missing
`distribution_controller.h`. "`MOD(k)`: block-id = `id mod k`";
"`DIV(k)`: block-id = `id div k`". -/
def DistributeController.get_blockid (dc : DistributeController) (id : Nat) : Nat :=
  match dc.method with
  | PartMethod.MOD => id % dc.partkey
  | PartMethod.DIV => id / dc.partkey

/-- Modelled from the spec: `get_index_in_block` of the missing
`distribution_controller.h`. "`MOD(k)`: index-in-block = `id div k`";
"`DIV(k)`: index-in-block = `id mod k`". -/
def DistributeController.get_index_in_block (dc : DistributeController) (id : Nat) : Nat :=
  match dc.method with
  | PartMethod.MOD => id / dc.partkey
  | PartMethod.DIV => id % dc.partkey

/-- Modelled from the spec: the table `node2block` of the missing
`distribution_controller.h`, "a mapping `node-id → (block-id, index-in-block)`",
with one entry for each node id of `[0, N)`. -/
def DistributeController.node2block (dc : DistributeController) : List (Nat × Nat) :=
  (List.range dc.nodenum).map (fun id => (dc.get_blockid id, dc.get_index_in_block id))

/-- Modelled from the spec: the number of blocks of the missing
`distribution_controller.h`. "Number of blocks = `⌈N/k⌉`" for `DIV(k)`,
"number of blocks = `k`" for `MOD(k)`. -/
def DistributeController.num_blocks (dc : DistributeController) : Nat :=
  match dc.method with
  | PartMethod.MOD => dc.partkey
  | PartMethod.DIV => (dc.nodenum + dc.partkey - 1) / dc.partkey

/-- Modelled from the spec: the ordered node list of block `b` in the missing
`distribution_controller.h`. "Blocks for method `DIV(k)`: block `b` contains ids
`[b·k, min((b+1)·k, N))`"; "Method `MOD(k)`: block `b` contains
`{id : id mod k == b}` in ascending order". -/
def DistributeController.block (dc : DistributeController) (b : Nat) : List Nat :=
  match dc.method with
  | PartMethod.MOD => (List.range dc.nodenum).filter (fun id => id % dc.partkey == b)
  | PartMethod.DIV =>
      List.range' (b * dc.partkey) (min ((b + 1) * dc.partkey) dc.nodenum - b * dc.partkey)

/-- Modelled from the spec: the block ids owned by worker `w` in the missing
`distribution_controller.h`. "Blocks are round-robin assigned to workers:
worker `w` owns blocks `{b : b mod maxworker == w}`". -/
def DistributeController.worker_block_ids (dc : DistributeController) (w : Nat) : List Nat :=
  (List.range dc.num_blocks).filter (fun b => b % dc.maxworker == w)

/-- Modelled from the spec: `get_worker_blocks(w)` of the missing
`distribution_controller.h`, "ordered list of blocks, each an ordered list of
node ids". -/
def DistributeController.get_worker_blocks (dc : DistributeController) (w : Nat) :
    List (List Nat) :=
  (dc.worker_block_ids w).map dc.block

/-- Modelled from the spec: `get_worker_blocks()` without argument, whose
worker defaults to the controller's own `wid` (`w = self.wid`). -/
def DistributeController.get_own_blocks (dc : DistributeController) : List (List Nat) :=
  dc.get_worker_blocks dc.wid

/-- The controllers `ds` of the unit tests: one per worker id of `[0, W)`, each
built as `DistributeController(n, maxw, i)` followed by `set_method`. -/
def test_controllers (n maxw : Nat) (m : PartMethod) (key : Nat) : List DistributeController :=
  (List.range maxw).map (fun i => (DistributeController.new n maxw i).set_method m key)

/-- All node ids met by the double loop of the unit tests, in visiting order:
for each controller `d` of `ds`, for each block of `d.get_worker_blocks()`,
for each position of the block. -/
def test_visited (n maxw : Nat) (m : PartMethod) (key : Nat) : List Nat :=
  ((test_controllers n maxw m key).map (fun d => d.get_own_blocks.flatten)).flatten

/-- The counter `cnt` of the unit tests: the sum of the sizes of all blocks of
all controllers. -/
def test_cnt (n maxw : Nat) (m : PartMethod) (key : Nat) : Nat :=
  ((test_controllers n maxw m key).map
    (fun d => (d.get_own_blocks.map List.length).sum)).sum

/-- The controller of scenario S3: `N = 10`, `W = 2`, worker 0, method `DIV`
with key 3. -/
def s3_controller : DistributeController :=
  (DistributeController.new 10 2 0).set_method PartMethod.DIV 3

/-- The controller of scenario S4: `N = 10`, `W = 2`, worker 0, method `MOD`
with key 3. -/
def s4_controller : DistributeController :=
  (DistributeController.new 10 2 0).set_method PartMethod.MOD 3

end distribute

namespace fifo_auto

/-- The fields of `warthog::solution` that `run_search` reads after
`get_path`: the search metrics `sol.met_` and the node path `sol.path_`. -/
structure solution where
  nodes_expanded_ : Nat
  nodes_generated_ : Nat
  heap_ops_ : Nat
  nodes_reopen_ : Nat
  nodes_surplus_ : Nat
  path_ : List Nat
  deriving DecidableEq, Repr

/-- The fields of the request configuration `config` (declared in
`json_config.h`) that `fifo_auto.cpp` reads: the cutoffs handed to the search
by `apply_conf`, the thread count and the flags. The floating-point scales
`hscale` and `fscale` are left out. -/
structure config where
  time : Nat
  itrs : Nat
  k_moves : Nat
  threads : Nat
  verbose : Bool
  debug : Bool
  thread_alloc : Bool
  no_cache : Bool
  deriving DecidableEq, Repr

/-- A search instance of the pool `algos` once `apply_conf(alg, conf)` has
run: `alg->get_path(pi, sol)` for the instance `(start_id, target_id)` leaves
the solution `alg conf start_id target_id` in `sol`. -/
abbrev search := config → Nat → Nat → solution

/-- The integer reduction variables of `run_search`, which are also the
integer fields of the reply line. The wall-clock fields `t_read`, `t_astar`
and the elapsed time are left out. -/
structure stats where
  n_expanded : Nat
  n_generated : Nat
  n_reopen : Nat
  n_surplus : Nat
  n_heap_ops : Nat
  plen : Nat
  finished : Nat
  deriving DecidableEq, Repr

/-- All counters start at zero. -/
def stats.zero : stats := ⟨0, 0, 0, 0, 0, 0, 0⟩

/-- Addition of `unsigned int` counters, field by field, as done by `+=` and by
the `reduction(+ : ...)` clause. -/
def stats.add (a b : stats) : stats :=
  { n_expanded := (a.n_expanded + b.n_expanded) % 2 ^ 32
    n_generated := (a.n_generated + b.n_generated) % 2 ^ 32
    n_reopen := (a.n_reopen + b.n_reopen) % 2 ^ 32
    n_surplus := (a.n_surplus + b.n_surplus) % 2 ^ 32
    n_heap_ops := (a.n_heap_ops + b.n_heap_ops) % 2 ^ 32
    plen := (a.plen + b.plen) % 2 ^ 32
    finished := (a.finished + b.finished) % 2 ^ 32 }

/-- The "Update stats" lines of the loop body of `run_search`. The last line,
`finished += sol.path_.back() == target_id`, takes `back()` of the path
whatever its size; on an empty path that is undefined behaviour, rendered as
`none`. -/
def update_stats (acc : stats) (sol : solution) (target_id : Nat) : Option stats :=
  match sol.path_.getLast? with
  | none => none
  | some back =>
    some
      { n_expanded := (acc.n_expanded + sol.nodes_expanded_) % 2 ^ 32
        n_generated := (acc.n_generated + sol.nodes_generated_) % 2 ^ 32
        n_heap_ops := (acc.n_heap_ops + sol.heap_ops_) % 2 ^ 32
        n_reopen := (acc.n_reopen + sol.nodes_reopen_) % 2 ^ 32
        n_surplus := (acc.n_surplus + sol.nodes_surplus_) % 2 ^ 32
        plen := (acc.plen + sol.path_.length) % 2 ^ 32
        finished := (acc.finished + (if back = target_id then 1 else 0)) % 2 ^ 32 }

/-- The bounds `from` and `to` of the loop of thread `thread_id`: all of
`[0, n_results)` when `thread_alloc` is set, and otherwise
`step / thread_count` and `(step + n_results) / thread_count` with
`step = n_results * thread_id`, in `size_t` arithmetic. -/
def thread_bounds (thread_alloc : Bool) (n_results thread_count thread_id : Nat) : Nat × Nat :=
  if !thread_alloc then
    let step := (n_results * thread_id) % 2 ^ 64
    (step / thread_count, ((step + n_results) % 2 ^ 64) / thread_count)
  else
    (0, n_results)

/-- The values taken by the loop variable of
`for (auto id = from; id < to; id += 1)`. -/
def thread_ids (thread_alloc : Bool) (n_results thread_count thread_id : Nat) : List Nat :=
  List.range' (thread_bounds thread_alloc n_results thread_count thread_id).1
    ((thread_bounds thread_alloc n_results thread_count thread_id).2
      - (thread_bounds thread_alloc n_results thread_count thread_id).1)

/-- The two reads `reqs.at(i)` and `reqs.at(i + 1)` with `i = id * 2`;
`none` when `at` throws. -/
def query_at (reqs : List Nat) (id : Nat) : Option (Nat × Nat) :=
  match reqs[(id * 2) % 2 ^ 64]?, reqs[((id * 2) % 2 ^ 64 + 1) % 2 ^ 64]? with
  | some start_id, some target_id => some (start_id, target_id)
  | _, _ => none

/-- The test of the loop body that lets a request go on to the search: the
negation of `conf.thread_alloc && target_id % thread_count != thread_id`, on
which the body does `continue`. -/
def handles (thread_alloc : Bool) (thread_count thread_id target_id : Nat) : Bool :=
  !(thread_alloc && target_id % thread_count != thread_id)

/-- The loop of one thread of `run_search` over the request ids `ids`,
starting from the counters `acc`; `searched` lists the problem instances
`(id, start_id, target_id)` handed to `alg->get_path` so far, in order. The
result is `none` when a read of `reqs` throws or `back()` is taken of an empty
path. -/
def thread_loop (alg : Nat → Nat → solution) (thread_alloc : Bool) (reqs : List Nat)
    (thread_count thread_id : Nat) :
    List Nat → stats → List (Nat × Nat × Nat) → Option (stats × List (Nat × Nat × Nat))
  | [], acc, searched => some (acc, searched)
  | id :: ids, acc, searched =>
    match query_at reqs id with
    | none => none
    | some (start_id, target_id) =>
      if handles thread_alloc thread_count thread_id target_id then
        match update_stats acc (alg start_id target_id) target_id with
        | none => none
        | some acc1 =>
          thread_loop alg thread_alloc reqs thread_count thread_id ids acc1
            (searched ++ [(id, start_id, target_id)])
      else
        thread_loop alg thread_alloc reqs thread_count thread_id ids acc searched

/-- The body of the parallel region of `run_search` for thread `thread_id` of
a team of `thread_count`: `algos.at(thread_id)` (which throws beyond the pool),
`apply_conf`, the bounds, and the loop from zeroed private counters. The result
holds the thread's counters and the problem instances it searched. -/
def run_thread (algos : List search) (conf : config) (reqs : List Nat)
    (thread_count thread_id : Nat) : Option (stats × List (Nat × Nat × Nat)) :=
  match algos[thread_id]? with
  | none => none
  | some alg =>
    thread_loop (alg conf) conf.thread_alloc reqs thread_count thread_id
      (thread_ids conf.thread_alloc (reqs.length / 2) thread_count thread_id) stats.zero []

/-- The parallel region of `run_search`: a team of `conf.threads` threads, each
running `run_thread`, whose private counters are summed by the reduction. The
result holds the summed counters and, thread by thread, the problem instances
searched. -/
def run_search_team (algos : List search) (conf : config) (reqs : List Nat) :
    Option (stats × List (List (Nat × Nat × Nat))) :=
  (List.range conf.threads).foldlM
    (fun total thread_id =>
      (run_thread algos conf reqs conf.threads thread_id).map
        (fun r => (total.1.add r.1, total.2 ++ [r.2])))
    (stats.zero, [])

/-- The function `run_search`: the parallel region, then the reply line made of
the summed counters. The result is the integer part of the reply line written
to `fifo_out`. -/
def run_search (algos : List search) (conf : config) (reqs : List Nat) : Option stats :=
  (run_search_team algos conf reqs).map (fun r => r.1)

/-- The number of calls `g->perturb(v)` made inside the parallel region of
`run_search`: one per thread when `conf.no_cache` is set and `g` is not null. -/
def run_search_perturbs (conf : config) (g_present : Bool) : Nat :=
  if conf.no_cache && g_present then conf.threads else 0

/-- The amounts added to the counters by one searched request `q = (id,
start_id, target_id)` whose solution has a non-empty path. -/
def query_incr (alg : Nat → Nat → solution) (q : Nat × Nat × Nat) : stats :=
  { n_expanded := (alg q.2.1 q.2.2).nodes_expanded_
    n_generated := (alg q.2.1 q.2.2).nodes_generated_
    n_reopen := (alg q.2.1 q.2.2).nodes_reopen_
    n_surplus := (alg q.2.1 q.2.2).nodes_surplus_
    n_heap_ops := (alg q.2.1 q.2.2).heap_ops_
    plen := (alg q.2.1 q.2.2).path_.length
    finished := if (alg q.2.1 q.2.2).path_.getLast? = some q.2.2 then 1 else 0 }

/-- Whether the solution of request `q` has a non-empty path. -/
def query_ok (alg : Nat → Nat → solution) (q : Nat × Nat × Nat) : Bool :=
  !(alg q.2.1 q.2.2).path_.isEmpty

/-- The request `id` of the batch `reqs` as a problem instance `(id, start_id,
target_id)`, for `id` below `reqs.size() / 2`. -/
def request_of (reqs : List Nat) (id : Nat) : Nat × Nat × Nat :=
  (id, reqs.getD (2 * id) 0, reqs.getD (2 * id + 1) 0)

/-- A search instance that expands one node and returns the two-node path from
start to target. -/
def direct_alg : search :=
  fun _ start_id target_id => ⟨1, 2, 3, 0, 0, [start_id, target_id]⟩

/-- A search instance that gives up on every request and returns an empty
path. -/
def gave_up_alg : search :=
  fun _ _ _ => ⟨0, 0, 0, 0, 0, []⟩

/-- A request configuration with two threads and `thread_alloc` set. -/
def alloc_conf : config :=
  { time := 0, itrs := 0, k_moves := 0, threads := 2, verbose := false, debug := false,
    thread_alloc := true, no_cache := false }

/-- A request configuration with three threads and range dispatch. -/
def three_threads_conf : config :=
  { time := 0, itrs := 0, k_moves := 0, threads := 3, verbose := false, debug := false,
    thread_alloc := false, no_cache := false }

/-- A request configuration with three threads and `thread_alloc` set. -/
def three_threads_alloc_conf : config :=
  { time := 0, itrs := 0, k_moves := 0, threads := 3, verbose := false, debug := false,
    thread_alloc := true, no_cache := false }

/-- A request configuration with one thread and range dispatch. -/
def single_conf : config :=
  { time := 0, itrs := 0, k_moves := 0, threads := 1, verbose := false, debug := false,
    thread_alloc := false, no_cache := false }

/-- `warthog::graph::edge`: head node and weight. -/
structure edge where
  node_id_ : Nat
  wt_ : Nat
  deriving DecidableEq, Repr

/-- An input file stream once opened: the whitespace-separated unsigned
numbers still to be read. -/
abbrev tokens := List Nat

/-- The call `v.resize(n)` of `std::vector`: the first `n` elements are kept and
new elements take the value `d`. -/
def resize {α : Type} (v : List α) (n : Nat) (d : α) : List α :=
  v.take n ++ List.replicate (n - v.length) d

/-- The read `fd >> s` of a `size_t` count at the head of a file: the value
stored in `s`, the remaining numbers, and whether the stream is still good.
A failed read stores 0 at end of file and the largest value on overflow. -/
def read_count : tokens → Nat × tokens × Bool
  | [] => (0, [], false)
  | v :: rest => if v < 2 ^ 64 then (v, rest, true) else (2 ^ 64 - 1, rest, false)

/-- The loop `while (fd >> o >> d) { lines.at(i) = o; lines.at(i + 1) = d;
i += 2; }` of `reader`; `none` when `at` throws. -/
def read_pairs : tokens → List Nat → Nat → Option (List Nat)
  | o :: d :: rest, lines, i =>
    if o < 2 ^ 64 ∧ d < 2 ^ 64 then
      if i < lines.length ∧ i + 1 < lines.length then
        read_pairs rest ((lines.set i o).set (i + 1) d) (i + 2)
      else none
    else some lines
  | _, lines, _ => some lines

/-- The loop `while (fd >> h >> t >> w) { edges.at(i) = {h, edge(t, w)};
i += 1; }` of `reader`, `h` and `t` being 32-bit; `none` when `at` throws. -/
def read_triples : tokens → List (Nat × edge) → Nat → Option (List (Nat × edge))
  | h :: t :: w :: rest, edges, i =>
    if h < 2 ^ 32 ∧ t < 2 ^ 32 then
      if i < edges.length then
        read_triples rest (edges.set i (h, ⟨t, w⟩)) (i + 1)
      else none
    else some edges
  | _, edges, _ => some edges

/-- The else-branch that fills `lines` from an opened file: `fd >> s`,
`lines.resize(s * 2)`, then the pair loop. -/
def read_queries (toks : tokens) (lines : List Nat) : Option (List Nat) :=
  match read_count toks with
  | (s, rest, good) =>
    if good then read_pairs rest (resize lines ((s * 2) % 2 ^ 64) 0) 0
    else some (resize lines ((s * 2) % 2 ^ 64) 0)

/-- The else-branch that fills `edges` from an opened file: `fd >> s`,
`edges.resize(s)`, then the triple loop. New elements of `edges` take the
default-constructed value `dflt`. -/
def read_perturbations (dflt : Nat × edge) (toks : tokens) (edges : List (Nat × edge)) :
    Option (List (Nat × edge)) :=
  match read_count toks with
  | (s, rest, good) =>
    if good then read_triples rest (resize edges s dflt) 0
    else some (resize edges s dflt)

/-- What one opening of the FIFO delivers: the text of the config record and
the whitespace-separated words found after it by
`fd >> queries >> fifo_out >> diff`, in order (fewer than three when the
stream runs out or has failed). -/
structure raw_frame where
  conf_record : String
  words : List String
  deriving DecidableEq, Repr

/-- A request frame that holds its three paths: the text of the config record
and the words `queries`, `fifo_out` and `diff`. -/
structure frame where
  conf_record : String
  queries : String
  fifo_out : String
  diff : String
  deriving DecidableEq, Repr

/-- What the FIFO delivers for a frame that holds its three paths. -/
def frame.raw (fr : frame) : raw_frame :=
  { conf_record := fr.conf_record, words := [fr.queries, fr.fifo_out, fr.diff] }

/-- The variables of `reader` that are declared before its `while (true)` loop
and live across frames (the stream `fd` and the timer `t` apart). -/
structure reader_state where
  conf : config
  fifo_out : String
  queries : String
  diff : String
  lines : List Nat
  edges : List (Nat × edge)
  deriving DecidableEq, Repr

/-- The statement `fd >> queries >> fifo_out >> diff`, whose outcome `reader`
does not look at: an extraction that finds a word stores it, and once the
words have run out the strings not yet reached keep the values they had. The
result is the values of `(queries, fifo_out, diff)` after the statement. -/
def read_paths (queries fifo_out diff : String) : List String → String × String × String
  | [] => (queries, fifo_out, diff)
  | [q] => (q, fifo_out, diff)
  | [q, o] => (q, o, diff)
  | q :: o :: d :: _ => (q, o, d)

/-- What one turn of the loop of `reader` does to the outside: the argument of
`g->perturb(edges)` when it is called, and the arguments `(conf, fifo_out,
lines)` of `run_search` when it is called. -/
structure frame_effect where
  perturbed : Option (List (Nat × edge))
  searched : Option (config × String × List Nat)
  deriving DecidableEq, Repr

/-- One turn of the `while (true)` loop of `reader`.
* `read_conf record conf` stands for `fd >> conf`: the value left in `conf` and
  whether the read returned normally (its definition lives in `json_config.h`);
  `sanitise_conf` runs only after a normal return.
* `fs path` is the content of the file `path`, `none` when it cannot be opened.
* `g_present` says that `g` is not null.
The result is `none` when an `at` throws, which ends the server. -/
def reader_turn (read_conf : String → config → config × Bool)
    (sanitise_conf : config → config) (dflt : Nat × edge)
    (fs : String → Option tokens) (g_present : Bool)
    (st : reader_state) (rf : raw_frame) : Option (reader_state × frame_effect) :=
  let conf :=
    match read_conf rf.conf_record st.conf with
    | (c, true) => sanitise_conf c
    | (c, false) => c
  let paths := read_paths st.queries st.fifo_out st.diff rf.words
  let queries := paths.1
  let fifo_out := paths.2.1
  let diff := paths.2.2
  let lines? :=
    match fs queries with
    | none => some []
    | some toks => read_queries toks st.lines
  match lines? with
  | none => none
  | some lines =>
    let edges? : Option (List (Nat × edge) × Option (List (Nat × edge))) :=
      if diff != "-" && g_present then
        match fs queries with
        | none => some ([], some [])
        | some toks =>
          match read_perturbations dflt toks st.edges with
          | none => none
          | some edges => some (edges, some edges)
      else some (st.edges, none)
    match edges? with
    | none => none
    | some (edges, perturbed) =>
      some
        ({ conf := conf, fifo_out := fifo_out, queries := queries, diff := diff,
           lines := lines, edges := edges },
          { perturbed := perturbed
            searched := if lines.length > 0 then some (conf, fifo_out, lines) else none })

/-- One turn of the loop of `reader` on a frame that holds its three paths. -/
def reader_frame (read_conf : String → config → config × Bool)
    (sanitise_conf : config → config) (dflt : Nat × edge)
    (fs : String → Option tokens) (g_present : Bool)
    (st : reader_state) (fr : frame) : Option (reader_state × frame_effect) :=
  reader_turn read_conf sanitise_conf dflt fs g_present st fr.raw

/-- The perturbation list that a diff file holds: "first line `s`, then `s`
lines of `head tail new_weight`", in file order. -/
def diff_file_triples : tokens → List (Nat × edge)
  | [] => []
  | s :: rest =>
    ((List.range s).filterMap (fun i =>
      match rest[3 * i]?, rest[3 * i + 1]?, rest[3 * i + 2]? with
      | some h, some t, some w => some (h, (⟨t, w⟩ : edge))
      | _, _, _ => none))

/-- A file system with a queries file of three requests and a diff file of one
perturbation, `0 1 100`. -/
def sample_fs (path : String) : Option tokens :=
  if path = "queries.txt" then some [3, 0, 1, 1, 2, 2, 3]
  else if path = "diff.txt" then some [1, 0, 1, 100]
  else none

/-- The file system `sample_fs` with another diff file, `2 3 7`. -/
def sample_fs_other (path : String) : Option tokens :=
  if path = "queries.txt" then some [3, 0, 1, 1, 2, 2, 3]
  else if path = "diff.txt" then some [1, 2, 3, 7]
  else none

/-- A request frame naming the files of `sample_fs`. -/
def sample_frame : frame :=
  { conf_record := "", queries := "queries.txt", fifo_out := "out.csv", diff := "diff.txt" }

/-- The state of `reader` before its first frame: the three strings, `lines`
and `edges` empty. -/
def initial_state (conf : config) : reader_state :=
  { conf := conf, fifo_out := "", queries := "", diff := "", lines := [], edges := [] }

end fifo_auto

namespace make_cpd_auto

/-- The decimal text of an `int`, as produced by `std::to_string` and by
`operator<<`. -/
def to_string (n : Int) : List Char :=
  (toString n).toList

/-- The function `write_conf`: the text written to `conf_file`, where
`std::endl` ends a line. -/
def write_conf (xyfile method : List Char) (partkey wid bid : Int) : List Char :=
  "xyfile,method,methodkey,wid,bid,cpdtype".toList ++ ['\n']
    ++ (xyfile ++ ",".toList ++ method ++ ",".toList ++ to_string partkey ++ ",".toList
        ++ to_string wid ++ ",".toList
        ++ to_string wid ++ ",".toList ++ to_string bid ++ ",".toList
        ++ "reverse-table".toList ++ ['\n'])

/-- The lines of a text, each ended by a newline character. -/
def lines_of : List Char → List (List Char)
  | [] => []
  | c :: cs =>
    if c = '\n' then [] :: lines_of cs
    else
      match lines_of cs with
      | [] => [[c]]
      | l :: ls => (c :: l) :: ls

/-- The comma-separated fields of a line. -/
def fields_of : List Char → List (List Char)
  | [] => [[]]
  | c :: cs =>
    if c = ',' then [] :: fields_of cs
    else
      match fields_of cs with
      | [] => [[c]]
      | f :: fs => (c :: f) :: fs

/-- The value `std::string::npos`. -/
def npos : Nat := 2 ^ 64 - 1

/-- The scan behind `find_last_of`: `i` is the position of the head of the
remaining text and `last` the position of the last match so far. -/
def find_last_of_from (chars : List Char) : List Char → Nat → Nat → Nat
  | [], _, last => last
  | c :: cs, i, last => find_last_of_from chars cs (i + 1) (if chars.contains c then i else last)

/-- The call `s.find_last_of(chars)`: the position of the last character of `s`
that is one of `chars`, or `npos`. -/
def find_last_of (s chars : List Char) : Nat :=
  find_last_of_from chars s 0 npos

/-- The call `s.substr(pos, n)`: it throws `std::out_of_range` (here `none`)
when `pos > s.size()`. -/
def substr (s : List Char) (pos n : Nat) : Option (List Char) :=
  if pos > s.length then none else some ((s.drop pos).take n)

/-- The function `format_cpdfile` of `make_cpd_auto.cpp`. -/
def format_cpdfile (graphfile outdir : List Char) (wid bid : Int) : Option (List Char) :=
  match substr graphfile 0 (find_last_of graphfile ['.']) with
  | none => none
  | some res =>
    let res? :=
      if !outdir.isEmpty then
        match substr res (find_last_of res ['\\', '/']) npos with
        | none => none
        | some tail => some (outdir ++ "/".toList ++ tail)
      else some res
    match res? with
    | none => none
    | some res2 =>
      some (res2 ++ "-".toList ++ to_string wid ++ "-".toList ++ to_string bid ++ ".cpd".toList)

end make_cpd_auto

namespace fifo_auto

/-- The `while (true)` loop of `reader` over what the FIFO delivers, opening
after opening: the variables declared before the loop are handed from one turn
to the next. The result is `none` when a turn throws. -/
def reader_loop (read_conf : String → config → config × Bool)
    (sanitise_conf : config → config) (dflt : Nat × edge)
    (fs : String → Option tokens) (g_present : Bool) :
    reader_state → List raw_frame → Option (reader_state × List frame_effect)
  | st, [] => some (st, [])
  | st, rf :: rfs =>
    match reader_turn read_conf sanitise_conf dflt fs g_present st rf with
    | none => none
    | some (st1, eff) =>
      match reader_loop read_conf sanitise_conf dflt fs g_present st1 rfs with
      | none => none
      | some (st2, effs) => some (st2, eff :: effs)

/-- The loop of `reader` over frames that hold their three paths. -/
def reader_run (read_conf : String → config → config × Bool)
    (sanitise_conf : config → config) (dflt : Nat × edge)
    (fs : String → Option tokens) (g_present : Bool)
    (st : reader_state) (frs : List frame) : Option (reader_state × List frame_effect) :=
  reader_loop read_conf sanitise_conf dflt fs g_present st (frs.map frame.raw)

/-- A config reader for the samples: the record `alloc` parses to `alloc_conf`;
any other record is malformed, and the read throws before `conf` is assigned. -/
def sample_read_conf (record : String) (conf : config) : config × Bool :=
  if record = "alloc" then (alloc_conf, true) else (conf, false)

/-- A file system with two queries files: `first.txt` declares two requests and
holds both, `second.txt` declares two requests and holds only the first. -/
def stale_fs (path : String) : Option tokens :=
  if path = "first.txt" then some [2, 5, 6, 7, 8]
  else if path = "second.txt" then some [2, 1, 2]
  else none

/-- A frame with a well-formed config record `alloc`, the queries of
`first.txt` and no diff file. -/
def first_frame : frame :=
  { conf_record := "alloc", queries := "first.txt", fifo_out := "out.csv", diff := "-" }

/-- A frame with a malformed config record, the queries of `first.txt` and no
diff file. -/
def second_frame : frame :=
  { conf_record := "threads=", queries := "first.txt", fifo_out := "out.csv", diff := "-" }

/-- A frame with a well-formed config record, the queries of `second.txt` and
no diff file. -/
def short_frame : frame :=
  { conf_record := "alloc", queries := "second.txt", fifo_out := "out.csv", diff := "-" }

/-- A frame whose queries file cannot be opened and whose diff path is not
`-`. -/
def bad_queries_frame : frame :=
  { conf_record := "alloc", queries := "missing.txt", fifo_out := "out.csv",
    diff := "diff.txt" }

/-- An opening of the FIFO that delivers a well-formed config record and no
word after it. -/
def truncated_frame : raw_frame :=
  { conf_record := "alloc", words := [] }

/-- A file system with two queries files that hold the requests they declare:
`long.txt` three requests, `first.txt` two. -/
def complete_fs (path : String) : Option tokens :=
  if path = "long.txt" then some [3, 1, 2, 3, 4, 5, 6]
  else if path = "first.txt" then some [2, 5, 6, 7, 8]
  else none

/-- A frame with the queries of `long.txt` and a diff path that is not `-`. -/
def long_diff_frame : frame :=
  { conf_record := "alloc", queries := "long.txt", fifo_out := "out.csv", diff := "diff.txt" }

/-- A frame with the queries of `first.txt` and a diff path that is not `-`. -/
def first_diff_frame : frame :=
  { conf_record := "alloc", queries := "first.txt", fifo_out := "out.csv",
    diff := "diff.txt" }

/-- Modelled from the spec: the graph `xy_graph` of the missing `xy_graph.h`,
as far as `perturb` goes: the weighted edges `(tail, (head, weight))` and the
epoch counter `version`. "Supports `perturb(edge_patches)`: replaces the weight
of specified edges and atomically increments an epoch counter `g.version`". -/
structure xy_graph where
  edges : List (Nat × edge)
  version : Nat
  deriving DecidableEq, Repr

/-- A graph with one edge `0 → 1` of weight 1, at version 7. -/
def sample_graph : xy_graph :=
  { edges := [(0, ⟨1, 1⟩)], version := 7 }

/-- Modelled from the spec: one patch `(tail, (head, new_weight))` of `perturb`
on the edge list of the missing `xy_graph.h`: the edge `tail → head` takes the
new weight, the topology stays. -/
def patch_edges (es : List (Nat × edge)) (p : Nat × edge) : List (Nat × edge) :=
  es.map (fun e =>
    if e.1 = p.1 ∧ e.2.node_id_ = p.2.node_id_ then (e.1, ⟨e.2.node_id_, p.2.wt_⟩) else e)

/-- Modelled from the spec: `xy_graph::perturb` of the missing `xy_graph.h`.
"`perturb` takes a list `[(edge_key, new_weight)]` and updates weights in
place; passing an empty list still bumps `version`". -/
def xy_graph.perturb (g : xy_graph) (patches : List (Nat × edge)) : xy_graph :=
  { edges := patches.foldl patch_edges g.edges, version := g.version + 1 }

/-- The graph after one turn of the loop of `reader`: the call
`g->perturb(edges)` of `reader` when it is made, then, when `run_search` is
called, the calls `g->perturb(v)` with an empty `v` made by the threads of its
parallel region. -/
def graph_after_frame (g : xy_graph) (g_present : Bool) (eff : frame_effect) : xy_graph :=
  let g1 :=
    match eff.perturbed with
    | some patches => g.perturb patches
    | none => g
  match eff.searched with
  | some (conf, _, _) => (fun h : xy_graph => h.perturb [])^[run_search_perturbs conf g_present] g1
  | none => g1

/-- What happens to the graph and to the search team during one turn of the
loop of `reader`, in program order. -/
inductive server_event where
  | reader_perturb (edges : List (Nat × edge))
  | dispatch
  | thread_perturb (thread_id : Nat)
  | join
  deriving DecidableEq, Repr

/-- The events of one call of `run_search`: the team is started at the
`#pragma omp parallel`, each thread calls `g->perturb(v)` when `conf.no_cache`
is set and `g` is not null, and the team is joined at the end of the region. -/
def run_search_events (conf : config) (g_present : Bool) : List server_event :=
  [server_event.dispatch]
    ++ (List.range conf.threads).flatMap
        (fun t => if conf.no_cache && g_present then [server_event.thread_perturb t] else [])
    ++ [server_event.join]

/-- The events of one turn of the loop of `reader`: its own `g->perturb(edges)`
first, then `run_search`. -/
def frame_events (g_present : Bool) (eff : frame_effect) : List server_event :=
  (match eff.perturbed with
    | some patches => [server_event.reader_perturb patches]
    | none => [])
    ++ (match eff.searched with
      | some (conf, _, _) => run_search_events conf g_present
      | none => [])

/-- Whether no call of `perturb` lies between a dispatch and the join that
follows it; `inside` says that a team is running. -/
def no_perturb_inside : Bool → List server_event → Bool
  | _, [] => true
  | _, server_event.dispatch :: evs => no_perturb_inside true evs
  | _, server_event.join :: evs => no_perturb_inside false evs
  | inside, server_event.reader_perturb _ :: evs => !inside && no_perturb_inside inside evs
  | inside, server_event.thread_perturb _ :: evs => !inside && no_perturb_inside inside evs

/-- A request configuration with two threads and `no_cache` set. -/
def no_cache_conf : config :=
  { time := 0, itrs := 0, k_moves := 0, threads := 2, verbose := false, debug := false,
    thread_alloc := false, no_cache := true }

/-- Whether a queries file holds at least the pairs it declares: a count `s`
whose double fits a `size_t`, followed by at least `2 * s` numbers of 64 bits.
An empty file, whose count reads as 0, qualifies. -/
def pairs_complete : tokens → Bool
  | [] => true
  | s :: rest => decide (s < 2 ^ 63) && decide (2 * s ≤ rest.length)
      && (rest.take (2 * s)).all (fun v => decide (v < 2 ^ 64))

/-- The query vector handed to `run_search` by one turn of the loop, when it
is called. -/
def frame_effect.query_vector (eff : frame_effect) : Option (List Nat) :=
  eff.searched.map (fun x => x.2.2)

end fifo_auto

namespace warthog

/-- Modelled from the spec: the bounding box `bbox_` of a label (its type is
declared in a header outside the sources), an axis-parallel rectangle of
integer coordinates. -/
structure rectangle where
  x1 : Int
  y1 : Int
  x2 : Int
  y2 : Int
  deriving DecidableEq, Repr

/-- Modelled from the spec: `bbox_.contains(x, y)`, whether the "bounding box
contains the target's `(x, y)`". -/
def rectangle.contains (r : rectangle) (x y : Int) : Bool :=
  decide (r.x1 ≤ x) && decide (x ≤ r.x2) && decide (r.y1 ≤ y) && decide (y ≤ r.y2)

/-- Modelled from the spec: the "DFS id-range label" of an edge, a closed range
of node ids. -/
structure id_range where
  left : Nat
  right : Nat
  deriving DecidableEq, Repr

/-- Modelled from the spec: whether an id-range label contains a node id. -/
def id_range.contains (r : id_range) (id : Nat) : Bool :=
  decide (r.left ≤ id) && decide (id ≤ r.right)

/-- The label `warthog::label::dfs_label` of an edge (declared in
`dfs_labelling.h`): the id range and the bounding box. -/
structure dfs_label where
  rank_ : id_range
  bbox_ : rectangle
  deriving DecidableEq, Repr

/-- The members of `fch_dfs_expansion_policy` that its filters read: the
labelling `lab_`, as the function `lab_->get_label(node_idx, edge_idx)`, the
label id `t_label` of the target and the target's coordinates `tx_`, `ty_`. -/
structure fch_dfs_expansion_policy where
  lab_ : Nat → Nat → dfs_label
  t_label : Nat
  tx_ : Int
  ty_ : Int

/-- The member function `filter_all` of `fch_dfs_expansion_policy`. -/
def fch_dfs_expansion_policy.filter_all (p : fch_dfs_expansion_policy)
    (node_idx edge_idx : Nat) : Bool :=
  let label := p.lab_ node_idx edge_idx
  let retval := label.bbox_.contains p.tx_ p.ty_
  !retval

/-- The member function `filter_bb_only` of `fch_dfs_expansion_policy`. -/
def fch_dfs_expansion_policy.filter_bb_only (p : fch_dfs_expansion_policy)
    (node_idx edge_idx : Nat) : Bool :=
  let label := p.lab_ node_idx edge_idx
  let retval := label.bbox_.contains p.tx_ p.ty_
  !retval

/-- A policy whose every edge has the id range `[5, 9]` and the bounding box
`(0,0)-(10,10)`, with a target of label id 2 at `(3, 3)`: the target is outside
the id range and inside the box. -/
def outside_range_policy : fch_dfs_expansion_policy :=
  { lab_ := fun _ _ => ⟨⟨5, 9⟩, ⟨0, 0, 10, 10⟩⟩, t_label := 2, tx_ := 3, ty_ := 3 }

/-- A policy whose every edge has the id range `[0, 9]` and the bounding box
`(5,5)-(10,10)`, with a target of label id 2 at `(3, 3)`: the target is inside
the id range and outside the box. -/
def inside_range_policy : fch_dfs_expansion_policy :=
  { lab_ := fun _ _ => ⟨⟨0, 9⟩, ⟨5, 5, 10, 10⟩⟩, t_label := 2, tx_ := 3, ty_ := 3 }

end warthog

namespace make_cpd_auto

/-- The `while (start_id < node_count)` loop of one thread of `make_cpd`,
with `fuel` bounding the number of turns: the sources handed to
`cpd.compute_row`, in order, and the shared counter `nprocessed` (32 bits)
after the thread's increments. `none` when the fuel runs out or
`nodes.at(start_id)` throws. The progress bar is left out. -/
def make_cpd_loop (nodes : List Nat) (thread_count : Nat) :
    Nat → Nat → Nat → Option (List Nat × Nat)
  | 0, _, _ => none
  | fuel + 1, start_id, nprocessed =>
    if start_id < nodes.length then
      match nodes[start_id]? with
      | none => none
      | some source_id =>
        match make_cpd_loop nodes thread_count fuel ((start_id + thread_count) % 2 ^ 64)
            ((nprocessed + 1) % 2 ^ 32) with
        | none => none
        | some (sources, n) => some (source_id :: sources, n)
    else some ([], nprocessed)

/-- The body of the parallel region of `make_cpd` for thread `thread_id`:
`listeners.at(thread_id)` (which throws beyond the `nlisteners` listeners),
then the loop from `start_id = thread_id`. -/
def make_cpd_thread (nodes : List Nat) (nlisteners thread_count fuel thread_id nprocessed : Nat) :
    Option (List Nat × Nat) :=
  if thread_id < nlisteners then make_cpd_loop nodes thread_count fuel thread_id nprocessed
  else none

/-- The parallel region of `make_cpd` with the threads `thread_ids` of a team
of `thread_count`, their increments of `nprocessed` taken thread after thread:
the sources computed by each thread and the final `nprocessed`. -/
def make_cpd_region (nodes : List Nat) (nlisteners thread_count fuel : Nat) :
    List Nat → Nat → Option (List (List Nat) × Nat)
  | [], nprocessed => some ([], nprocessed)
  | thread_id :: rest, nprocessed =>
    match make_cpd_thread nodes nlisteners thread_count fuel thread_id nprocessed with
    | none => none
    | some (sources, n) =>
      match make_cpd_region nodes nlisteners thread_count fuel rest n with
      | none => none
      | some (others, m) => some (sources :: others, m)

/-- The files written for one block by the loop of `main`: the CPD file name,
the config file name and the text of the config file. -/
structure block_files where
  cpd_filename : List Char
  config : List Char
  conf_text : List Char
  deriving DecidableEq, Repr

/-- The loop `for (auto& nodes: dc.get_worker_blocks())` of `main`, over the
blocks still to do. `nodes.back()` of an empty block is undefined and
`substr` may throw: both give `none`. The CPD file is taken to be writable, so
that `make_cpd` does not fail. -/
def main_loop (dc : distribute.DistributeController) (xy_filename outdir partition : List Char)
    (partkey : Int) : List (List Nat) → Option (List block_files)
  | [] => some []
  | nodes :: rest =>
    match nodes.getLast? with
    | none => none
    | some back =>
      match format_cpdfile xy_filename outdir dc.wid (dc.get_blockid back) with
      | none => none
      | some cpd_filename =>
        match substr cpd_filename 0 (find_last_of cpd_filename ['.']) with
        | none => none
        | some stem =>
          match main_loop dc xy_filename outdir partition partkey rest with
          | none => none
          | some files =>
            some ({ cpd_filename := cpd_filename
                    config := stem ++ ".conf".toList
                    conf_text := write_conf xy_filename partition partkey dc.wid
                      (dc.get_blockid back) } :: files)

/-- The part of `main` after the controller is set up: the loop over the
blocks of this worker, `dc.get_worker_blocks()`. -/
def main_files (dc : distribute.DistributeController) (xy_filename outdir partition : List Char)
    (partkey : Int) : Option (List block_files) :=
  main_loop dc xy_filename outdir partition partkey dc.get_own_blocks

/-- The controller of the header comment of `make_cpd_auto.cpp`: 167760 nodes,
5 workers, method `DIV` with key 9000, seen from worker `wid`. -/
def header_controller (wid : Nat) : distribute.DistributeController :=
  (distribute.DistributeController.new 167760 5 wid).set_method distribute.PartMethod.DIV 9000

end make_cpd_auto

namespace fifo_auto

/-- Modelled from the spec: the function `distribute::format_cpdfile` called by
`run_table_search` and `run_table` is declared in the missing
`distribution_controller.h`; it is taken to name files as the builder does,
`<map>-<wid>-<bid>.cpd`, that is as `format_cpdfile` of `make_cpd_auto.cpp`. -/
def server_format_cpdfile (graphfile outdir : List Char) (wid bid : Int) :
    Option (List Char) :=
  make_cpd_auto.format_cpdfile graphfile outdir wid bid

/-- The CPD file that `run_table_search` and `run_table` open at start-up:
`distribute::format_cpdfile(xy_filename, dir, dc.wid, 0)`. -/
def server_cpdfile (dc : distribute.DistributeController) (xy_filename dir : List Char) :
    Option (List Char) :=
  server_format_cpdfile xy_filename dir dc.wid 0

end fifo_auto

namespace make_cpd_auto

/-- One step of reading a decimal text back: the value so far times ten plus
the value of the digit. -/
def digit_fold (a : Nat) (c : Char) : Nat := a * 10 + (c.toNat - 48)

/-- The part of the result of `format_cpdfile` that comes before
`-<wid>-<bid>.cpd`: the graph file without its extension, moved under `outdir`
when `outdir` is not empty. -/
def cpd_stem (graphfile outdir : List Char) : Option (List Char) :=
  match substr graphfile 0 (find_last_of graphfile ['.']) with
  | none => none
  | some res =>
    if !outdir.isEmpty then
      match substr res (find_last_of res ['\\', '/']) npos with
      | none => none
      | some tail => some (outdir ++ "/".toList ++ tail)
    else some res

/-- The three files of the block `bid` of worker `wid`, for the stem `res`. -/
def block_files_of (res xy_filename partition : List Char) (partkey wid bid : Int) :
    block_files :=
  { cpd_filename := res ++ "-".toList ++ to_string wid ++ "-".toList ++ to_string bid
      ++ ".cpd".toList
    config := (res ++ "-".toList ++ to_string wid ++ "-".toList ++ to_string bid)
      ++ ".conf".toList
    conf_text := write_conf xy_filename partition partkey wid bid }

/-- The controller of scenario S3 seen from worker 1. -/
def s3_worker1 : distribute.DistributeController :=
  (distribute.DistributeController.new 10 2 1).set_method distribute.PartMethod.DIV 3

/-- A controller for 2 nodes, one worker and method `MOD` with key 3. -/
def sparse_controller : distribute.DistributeController :=
  (distribute.DistributeController.new 2 1 0).set_method distribute.PartMethod.MOD 3

end make_cpd_auto

/-! ## Theorems -/


theorem filter_excl_append_perm {α : Type} (p q : α → Bool) (L : List α)
    (h : ∀ x ∈ L, ¬ (p x = true ∧ q x = true)) :
    (L.filter p ++ L.filter q).Perm (L.filter (fun x => p x || q x)) := by
  induction L with
  | nil => simp
  | cons a L ih =>
    have ih2 := ih (fun x hx => h x (List.mem_cons_of_mem _ hx))
    have ha := h a (List.mem_cons_self _ _)
    cases hp : p a <;> cases hq : q a
    · simpa [List.filter_cons, hp, hq] using ih2
    · simp only [List.filter_cons, hp, hq, Bool.false_or, if_true, if_false, Bool.false_eq_true]
      exact (List.perm_middle).trans (List.Perm.cons a ih2)
    · simpa [List.filter_cons, hp, hq] using ih2
    · exact absurd ⟨hp, hq⟩ ha

theorem flatMap_filter_key_perm {α : Type} (f : α → Nat) (L : List α) (M : Nat) :
    ((List.range M).flatMap (fun b => L.filter (fun x => f x == b))).Perm
      (L.filter (fun x => decide (f x < M))) := by
  induction M with
  | zero => simp
  | succ M ih =>
    rw [List.range_succ, List.flatMap_append]
    simp only [List.flatMap_cons, List.flatMap_nil, List.append_nil]
    refine (List.Perm.append_right _ ih).trans ?_
    refine (filter_excl_append_perm _ _ L ?_).trans ?_
    · intro x _ hx
      simp only [decide_eq_true_eq, beq_iff_eq] at hx
      omega
    · apply List.Perm.of_eq
      apply List.filter_congr
      intro x _
      by_cases h1 : f x < M
      · simp [h1]; omega
      · by_cases h2 : f x = M
        · simp [h2]
        · have h3 : ¬ f x < M + 1 := by omega
          simp [h1, h2, h3]

theorem sorted_nodup_ext {l₁ l₂ : List Nat} (s₁ : l₁.Sorted (· < ·))
    (s₂ : l₂.Sorted (· < ·)) (h : ∀ x, x ∈ l₁ ↔ x ∈ l₂) : l₁ = l₂ :=
  List.eq_of_perm_of_sorted ((List.perm_ext_iff_of_nodup s₁.nodup s₂.nodup).2 h) s₁ s₂

theorem div_eq_iff_bounds (id k b : Nat) (hk : 0 < k) :
    id / k = b ↔ b * k ≤ id ∧ id < (b + 1) * k := by
  constructor
  · intro h
    have h1 := Nat.div_add_mod id k
    have h2 := Nat.mod_lt id hk
    subst h
    have h3 : (id / k + 1) * k = k * (id / k) + k := by ring
    have h4 : id / k * k = k * (id / k) := by ring
    omega
  · rintro ⟨h1, h2⟩
    exact Nat.div_eq_of_lt_le h1 h2

theorem range'_eq_filter_div (N k b : Nat) (hk : 0 < k) :
    List.range' (b * k) (min ((b + 1) * k) N - b * k)
      = (List.range N).filter (fun id => id / k == b) := by
  apply sorted_nodup_ext
  · exact List.pairwise_lt_range' _ _
  · exact (List.sorted_lt_range N).filter _
  · intro x
    simp only [List.mem_range'_1, List.mem_filter, List.mem_range, beq_iff_eq]
    rw [div_eq_iff_bounds x k b hk]
    have h3 : (b + 1) * k = b * k + k := by ring
    omega

theorem filter_range_getElem?_countP (p : Nat → Bool) (N x : Nat) (hx : x < N) (hp : p x = true) :
    ((List.range N).filter p)[(List.range x).countP p]? = some x := by
  have h1 : List.range N = List.range x ++ x :: List.range' (x + 1) (N - x - 1) := by
    rw [List.range_eq_range', List.range_eq_range', ← List.range'_succ]
    have : N = (N - x - 1 + 1) + x := by omega
    conv_lhs => rw [this]
    rw [← List.range'_append]
    simp
  rw [h1, List.filter_append, List.filter_cons, if_pos hp, List.countP_eq_length_filter]
  rw [List.getElem?_append_right (le_refl _)]
  simp

theorem countP_mod_eq_div (k x : Nat) (hk : 0 < k) :
    (List.range x).countP (fun id => id % k == x % k) = x / k := by
  have h := Nat.count_modEq_card x hk x
  simp only [lt_self_iff_false, if_false, Nat.add_zero] at h
  rw [← h]
  unfold Nat.count
  apply List.countP_congr
  intro a _
  simp [Nat.ModEq]

namespace distribute

theorem block_eq_filter (dc : DistributeController) (b : Nat) (hk : 0 < dc.partkey) :
    dc.block b = (List.range dc.nodenum).filter (fun id => dc.get_blockid id == b) := by
  unfold DistributeController.block DistributeController.get_blockid
  cases dc.method with
  | MOD => rfl
  | DIV => exact range'_eq_filter_div _ _ _ hk

theorem get_blockid_lt (dc : DistributeController) (id : Nat) (hk : 0 < dc.partkey)
    (hid : id < dc.nodenum) : dc.get_blockid id < dc.num_blocks := by
  unfold DistributeController.get_blockid DistributeController.num_blocks
  cases dc.method with
  | MOD => exact Nat.mod_lt _ hk
  | DIV =>
    simp only
    rw [Nat.div_lt_iff_lt_mul hk]
    have h1 := Nat.div_add_mod (dc.nodenum + dc.partkey - 1) dc.partkey
    have h2 := Nat.mod_lt (dc.nodenum + dc.partkey - 1) hk
    have h3 : (dc.nodenum + dc.partkey - 1) / dc.partkey * dc.partkey
        = dc.partkey * ((dc.nodenum + dc.partkey - 1) / dc.partkey) := by ring
    omega

theorem test_visited_eq (n maxw : Nat) (m : PartMethod) (key : Nat) :
    test_visited n maxw m key
      = ((List.range maxw).flatMap (fun w =>
          (List.range ((DistributeController.new n maxw 0).set_method m key).num_blocks).filter
            (fun b => b % maxw == w))).flatMap
          ((DistributeController.new n maxw 0).set_method m key).block := by
  unfold test_visited test_controllers
  rw [List.flatMap_assoc, List.map_map, ← List.flatMap_def]
  apply List.flatMap_congr
  intro w _
  simp only [Function.comp, DistributeController.get_own_blocks,
    DistributeController.get_worker_blocks, ← List.flatMap_def]
  rfl

theorem test_visited_perm (n maxw : Nat) (m : PartMethod) (key : Nat)
    (hk : 1 ≤ key) (hw : 1 ≤ maxw) : (test_visited n maxw m key).Perm (List.range n) := by
  rw [test_visited_eq]
  set D := (DistributeController.new n maxw 0).set_method m key with hD
  have hDk : 0 < D.partkey := hk
  have hDn : D.nodenum = n := rfl
  have h1 : ((List.range maxw).flatMap (fun w =>
      (List.range D.num_blocks).filter (fun b => b % maxw == w))).Perm
      (List.range D.num_blocks) := by
    refine (flatMap_filter_key_perm (fun b => b % maxw) _ maxw).trans ?_
    apply List.Perm.of_eq
    rw [List.filter_eq_self]
    intro b _
    simpa using Nat.mod_lt b hw
  refine (List.Perm.flatMap_right _ h1).trans ?_
  have h2 : (List.range D.num_blocks).flatMap D.block
      = (List.range D.num_blocks).flatMap
          (fun b => (List.range n).filter (fun id => D.get_blockid id == b)) := by
    apply List.flatMap_congr
    intro b _
    rw [block_eq_filter D b hDk, hDn]
  rw [h2]
  refine (flatMap_filter_key_perm D.get_blockid _ _).trans ?_
  apply List.Perm.of_eq
  rw [List.filter_eq_self]
  intro id hid
  simpa using get_blockid_lt D id hDk (by simpa [hDn] using hid)

theorem test_cnt_eq_length (n maxw : Nat) (m : PartMethod) (key : Nat) :
    test_cnt n maxw m key = (test_visited n maxw m key).length := by
  unfold test_cnt test_visited
  rw [List.length_flatten, List.map_map]
  congr 1
  apply List.map_congr_left
  intro d _
  simp [List.length_flatten]

/-- C1. Distribution completeness: for every node count `n`, key `key ≥ 1`,
`maxw ≥ 1` and method, the ids met in the blocks of the `maxw` controllers are a
rearrangement of `[0, n)`; the block sizes sum to `n` and no id occurs twice. -/
theorem distribution_complete (n maxw key : Nat) (m : PartMethod)
    (hk : 1 ≤ key) (hw : 1 ≤ maxw) :
    (test_visited n maxw m key).Perm (List.range n)
      ∧ test_cnt n maxw m key = n
      ∧ (test_visited n maxw m key).Nodup := by
  have hp := test_visited_perm n maxw m key hk hw
  refine ⟨hp, ?_, ?_⟩
  · rw [test_cnt_eq_length, hp.length_eq, List.length_range]
  · exact hp.nodup_iff.2 (List.nodup_range n)

/-- Witness of C1 at the unit test of method `DIV`: `n = 167758`, `div = 9000`,
`maxw = 5`. -/
theorem distribution_complete_witness :
    1 ≤ 9000 ∧ 1 ≤ 5
      ∧ (test_visited 167758 5 PartMethod.DIV 9000).Perm (List.range 167758)
      ∧ test_cnt 167758 5 PartMethod.DIV 9000 = 167758
      ∧ (test_visited 167758 5 PartMethod.DIV 9000).Nodup :=
  ⟨by decide, by decide,
    distribution_complete 167758 5 9000 PartMethod.DIV (by decide) (by decide)⟩

theorem mem_block_iff (dc : DistributeController) (b x : Nat) (hk : 0 < dc.partkey) :
    x ∈ dc.block b ↔ x < dc.nodenum ∧ dc.get_blockid x = b := by
  rw [block_eq_filter dc b hk]
  simp

theorem nodup_block (dc : DistributeController) (b : Nat) : (dc.block b).Nodup := by
  unfold DistributeController.block
  cases dc.method with
  | MOD => exact (List.nodup_range _).filter _
  | DIV => exact List.nodup_range' _ _

theorem block_getElem?_index (dc : DistributeController) (id : Nat) (hk : 0 < dc.partkey)
    (hid : id < dc.nodenum) :
    (dc.block (dc.get_blockid id))[dc.get_index_in_block id]? = some id := by
  unfold DistributeController.block DistributeController.get_blockid
    DistributeController.get_index_in_block
  cases dc.method with
  | MOD =>
    simp only
    rw [← countP_mod_eq_div dc.partkey id hk]
    exact filter_range_getElem?_countP _ _ _ hid (by simp)
  | DIV =>
    simp only
    have h1 := Nat.div_add_mod id dc.partkey
    have h2 := Nat.mod_lt id hk
    have h3 : id / dc.partkey * dc.partkey = dc.partkey * (id / dc.partkey) := by ring
    have h4 : (id / dc.partkey + 1) * dc.partkey
        = dc.partkey * (id / dc.partkey) + dc.partkey := by ring
    have hlt : id % dc.partkey
        < (List.range' (id / dc.partkey * dc.partkey)
            (min ((id / dc.partkey + 1) * dc.partkey) dc.nodenum
              - id / dc.partkey * dc.partkey)).length := by
      rw [List.length_range']
      omega
    rw [List.getElem?_eq_getElem hlt, List.getElem_range']
    congr 1
    omega

theorem block_index_of_getElem (dc : DistributeController) (b i : Nat) (hk : 0 < dc.partkey)
    (hi : i < (dc.block b).length) : dc.get_index_in_block ((dc.block b)[i]) = i := by
  have hmem : (dc.block b)[i] ∈ dc.block b := List.getElem_mem hi
  obtain ⟨hlt, hb⟩ := (mem_block_iff dc b _ hk).1 hmem
  have hpos := block_getElem?_index dc _ hk hlt
  rw [hb] at hpos
  obtain ⟨hj, hje⟩ := List.getElem?_eq_some.1 hpos
  exact ((nodup_block dc b).getElem_inj_iff).1 hje

theorem mem_worker_block_ids (dc : DistributeController) (w b : Nat) :
    b ∈ dc.worker_block_ids w ↔ b < dc.num_blocks ∧ b % dc.maxworker = w := by
  simp [DistributeController.worker_block_ids]

/-- C2. Index-in-block consistency: in every block of every worker's list the
id at position `i` has index-in-block `i`; conversely an id of a block whose
index-in-block is `i` sits at position `i` of that block, and every id of
`[0, N)` has such a block, in the list of worker `block-id mod maxworker`. -/
theorem index_in_block_consistent (dc : DistributeController) (hk : 1 ≤ dc.partkey) :
    (∀ w, ∀ block ∈ dc.get_worker_blocks w, ∀ i, ∀ hi : i < block.length,
        dc.get_index_in_block (block[i]) = i)
      ∧ (∀ w, ∀ block ∈ dc.get_worker_blocks w, ∀ id ∈ block, ∀ i,
          dc.get_index_in_block id = i → block[i]? = some id)
      ∧ (∀ id, id < dc.nodenum →
          dc.block (dc.get_blockid id)
              ∈ dc.get_worker_blocks (dc.get_blockid id % dc.maxworker)
            ∧ id ∈ dc.block (dc.get_blockid id)) := by
  refine ⟨?_, ?_, ?_⟩
  · intro w block hb i hi
    obtain ⟨b, -, rfl⟩ := List.mem_map.1 hb
    exact block_index_of_getElem dc b i hk hi
  · intro w block hb id hid i hidx
    obtain ⟨b, -, rfl⟩ := List.mem_map.1 hb
    obtain ⟨hlt, hbid⟩ := (mem_block_iff dc b id hk).1 hid
    rw [← hidx, ← hbid]
    exact block_getElem?_index dc id hk hlt
  · intro id hid
    refine ⟨List.mem_map.2 ⟨dc.get_blockid id, ?_, rfl⟩, ?_⟩
    · exact (mem_worker_block_ids dc _ _).2 ⟨get_blockid_lt dc id hk hid, rfl⟩
    · exact (mem_block_iff dc _ id hk).2 ⟨hid, rfl⟩

/-- Witness of C2 at the controller of scenario S3. -/
theorem index_in_block_consistent_witness :
    1 ≤ s3_controller.partkey
      ∧ (∀ w, ∀ block ∈ s3_controller.get_worker_blocks w, ∀ i, ∀ hi : i < block.length,
          s3_controller.get_index_in_block (block[i]) = i)
      ∧ (∀ w, ∀ block ∈ s3_controller.get_worker_blocks w, ∀ id ∈ block, ∀ i,
          s3_controller.get_index_in_block id = i → block[i]? = some id)
      ∧ (∀ id, id < s3_controller.nodenum →
          s3_controller.block (s3_controller.get_blockid id)
              ∈ s3_controller.get_worker_blocks
                  (s3_controller.get_blockid id % s3_controller.maxworker)
            ∧ id ∈ s3_controller.block (s3_controller.get_blockid id)) :=
  ⟨by decide, index_in_block_consistent s3_controller (by decide)⟩

/-- C3. Node-to-block map: after `set_method(DIV, k)` an id has block id
`id div k` and index `id mod k`; after `set_method(MOD, k)` block id `id mod k`
and index `id div k`; and for either method the table `node2block` has `N`
entries, entry `id` being the pair (block id, index-in-block) of `id`. -/
theorem node_to_block_map (dc : DistributeController) (k id : Nat) (hid : id < dc.nodenum) :
    (dc.set_method PartMethod.DIV k).get_blockid id = id / k
      ∧ (dc.set_method PartMethod.DIV k).get_index_in_block id = id % k
      ∧ (dc.set_method PartMethod.MOD k).get_blockid id = id % k
      ∧ (dc.set_method PartMethod.MOD k).get_index_in_block id = id / k
      ∧ (dc.set_method PartMethod.DIV k).node2block[id]? = some (id / k, id % k)
      ∧ (dc.set_method PartMethod.MOD k).node2block[id]? = some (id % k, id / k)
      ∧ ∀ m, (dc.set_method m k).node2block.length = dc.nodenum := by
  refine ⟨rfl, rfl, rfl, rfl, ?_, ?_, ?_⟩
  · simp [DistributeController.node2block, DistributeController.set_method,
      DistributeController.get_blockid, DistributeController.get_index_in_block,
      List.getElem?_range, hid]
  · simp [DistributeController.node2block, DistributeController.set_method,
      DistributeController.get_blockid, DistributeController.get_index_in_block,
      List.getElem?_range, hid]
  · intro m
    simp [DistributeController.node2block, DistributeController.set_method]

/-- Witness of C3 at node 7 of a 10-node graph with key 3. -/
theorem node_to_block_map_witness :
    7 < (DistributeController.new 10 2 0).nodenum
      ∧ ((DistributeController.new 10 2 0).set_method PartMethod.DIV 3).get_blockid 7 = 7 / 3
      ∧ ((DistributeController.new 10 2 0).set_method PartMethod.DIV 3).get_index_in_block 7
          = 7 % 3
      ∧ ((DistributeController.new 10 2 0).set_method PartMethod.MOD 3).get_blockid 7 = 7 % 3
      ∧ ((DistributeController.new 10 2 0).set_method PartMethod.MOD 3).get_index_in_block 7
          = 7 / 3
      ∧ ((DistributeController.new 10 2 0).set_method PartMethod.DIV 3).node2block[7]?
          = some (7 / 3, 7 % 3)
      ∧ ((DistributeController.new 10 2 0).set_method PartMethod.MOD 3).node2block[7]?
          = some (7 % 3, 7 / 3)
      ∧ ∀ m, ((DistributeController.new 10 2 0).set_method m 3).node2block.length
          = (DistributeController.new 10 2 0).nodenum :=
  ⟨by decide, node_to_block_map (DistributeController.new 10 2 0) 3 7 (by decide)⟩

theorem worker_block_ids_getElem? (dc : DistributeController) (b : Nat)
    (hw : 0 < dc.maxworker) (hb : b < dc.num_blocks) :
    (dc.worker_block_ids (b % dc.maxworker))[b / dc.maxworker]? = some b := by
  unfold DistributeController.worker_block_ids
  rw [← countP_mod_eq_div dc.maxworker b hw]
  exact filter_range_getElem?_countP _ _ _ hb (by simp)

theorem map_index_block (dc : DistributeController) (b : Nat) (hk : 0 < dc.partkey) :
    (dc.block b).map dc.get_index_in_block = List.range (dc.block b).length := by
  apply List.ext_getElem
  · simp
  · intro i h1 h2
    rw [List.getElem_map, List.getElem_range]
    exact block_index_of_getElem dc b i hk (by simpa using h1)

theorem sorted_block (dc : DistributeController) (b : Nat) : (dc.block b).Sorted (· < ·) := by
  unfold DistributeController.block
  cases dc.method with
  | MOD => exact (List.sorted_lt_range _).filter _
  | DIV => exact List.pairwise_lt_range' _ _

/-- C4. Round-robin block ownership: the list of worker `w` holds the blocks
whose id `b` is below the number of blocks and has `b mod maxworker = w`, in
ascending block id, block `b` at position `b div maxworker`; each block lists
its ids in ascending order, the id at position `i` having index-in-block `i`. -/
theorem round_robin_ownership (dc : DistributeController) (w : Nat)
    (hk : 1 ≤ dc.partkey) (hw : 1 ≤ dc.maxworker) :
    dc.get_worker_blocks w = (dc.worker_block_ids w).map dc.block
      ∧ (∀ b, b ∈ dc.worker_block_ids w ↔ b < dc.num_blocks ∧ b % dc.maxworker = w)
      ∧ (dc.worker_block_ids w).Sorted (· < ·)
      ∧ (∀ b, b < dc.num_blocks → b % dc.maxworker = w →
          (dc.get_worker_blocks w)[b / dc.maxworker]? = some (dc.block b))
      ∧ (∀ b, ∀ x, x ∈ dc.block b ↔ x < dc.nodenum ∧ dc.get_blockid x = b)
      ∧ (∀ block ∈ dc.get_worker_blocks w,
          block.Sorted (· < ·)
            ∧ block.map dc.get_index_in_block = List.range block.length) := by
  refine ⟨rfl, mem_worker_block_ids dc w, ?_, ?_, ?_, ?_⟩
  · exact (List.sorted_lt_range _).filter _
  · intro b hb hbw
    subst hbw
    unfold DistributeController.get_worker_blocks
    rw [List.getElem?_map, worker_block_ids_getElem? dc b hw hb]
    rfl
  · intro b x
    exact mem_block_iff dc b x hk
  · intro block hb
    obtain ⟨b, -, rfl⟩ := List.mem_map.1 hb
    exact ⟨sorted_block dc b, map_index_block dc b hk⟩

/-- Witness of C4 at scenario S3, worker 0. -/
theorem round_robin_ownership_witness :
    1 ≤ s3_controller.partkey ∧ 1 ≤ s3_controller.maxworker
      ∧ s3_controller.get_worker_blocks 0
          = (s3_controller.worker_block_ids 0).map s3_controller.block
      ∧ (∀ b, b ∈ s3_controller.worker_block_ids 0
          ↔ b < s3_controller.num_blocks ∧ b % s3_controller.maxworker = 0)
      ∧ (s3_controller.worker_block_ids 0).Sorted (· < ·)
      ∧ (∀ b, b < s3_controller.num_blocks → b % s3_controller.maxworker = 0 →
          (s3_controller.get_worker_blocks 0)[b / s3_controller.maxworker]?
            = some (s3_controller.block b))
      ∧ (∀ b, ∀ x, x ∈ s3_controller.block b
          ↔ x < s3_controller.nodenum ∧ s3_controller.get_blockid x = b)
      ∧ (∀ block ∈ s3_controller.get_worker_blocks 0,
          block.Sorted (· < ·)
            ∧ block.map s3_controller.get_index_in_block = List.range block.length) :=
  ⟨by decide, by decide, round_robin_ownership s3_controller 0 (by decide) (by decide)⟩

/-- Scenario S3: with `N = 10`, `k = 3`, `W = 2` and `DIV`, worker 0 owns blocks
0 and 2, the ids 0,1,2,6,7,8, and worker 1 owns blocks 1 and 3, the ids
3,4,5,9. -/
theorem scenario_s3 :
    s3_controller.worker_block_ids 0 = [0, 2]
      ∧ s3_controller.get_worker_blocks 0 = [[0, 1, 2], [6, 7, 8]]
      ∧ s3_controller.worker_block_ids 1 = [1, 3]
      ∧ s3_controller.get_worker_blocks 1 = [[3, 4, 5], [9]] := by
  decide

/-- Scenario S4: with `N = 10`, `k = 3`, `W = 2` and `MOD`, worker 0 owns blocks
0 and 2, the ids 0,3,6,9 and 2,5,8, and worker 1 owns block 1, the ids 1,4,7. -/
theorem scenario_s4 :
    s4_controller.get_worker_blocks 0 = [[0, 3, 6, 9], [2, 5, 8]]
      ∧ s4_controller.get_worker_blocks 1 = [[1, 4, 7]] := by
  decide

end distribute

theorem flatMap_range'_consecutive (a : Nat → Nat) (hmono : ∀ t, a t ≤ a (t + 1)) (T : Nat) :
    (List.range T).flatMap (fun t => List.range' (a t) (a (t + 1) - a t))
      = List.range' (a 0) (a T - a 0) := by
  have hle : ∀ t, a 0 ≤ a t := by
    intro t
    induction t with
    | zero => exact le_refl _
    | succ t ih => exact le_trans ih (hmono t)
  induction T with
  | zero => simp
  | succ T ih =>
    rw [List.range_succ, List.flatMap_append, ih]
    simp only [List.flatMap_cons, List.flatMap_nil, List.append_nil]
    have h1 := hle T
    have h2 := hmono T
    have h3 : a (T + 1) - a 0 = (a T - a 0) + (a (T + 1) - a T) := by omega
    have h4 : List.range' (a T) (a (T + 1) - a T)
        = List.range' (a 0 + (a T - a 0)) (a (T + 1) - a T) := by
      congr 1
      omega
    rw [h3, h4, List.range'_append_1, Nat.add_comm]

namespace fifo_auto

theorem thread_bounds_range (s T t : Nat) (ht : t < T) (hov : s * T < 2 ^ 64) :
    thread_bounds false s T t = (t * s / T, (t + 1) * s / T) := by
  have h1 : s * t ≤ s * T := Nat.mul_le_mul_left s (le_of_lt ht)
  have h2 : s * t + s ≤ s * T := by
    have : s * (t + 1) ≤ s * T := Nat.mul_le_mul_left s ht
    rw [Nat.mul_succ] at this
    exact this
  have e1 : t * s = s * t := Nat.mul_comm _ _
  have e2 : (t + 1) * s = s * t + s := by ring
  simp only [thread_bounds, Bool.not_false, if_true]
  rw [Nat.mod_eq_of_lt (by omega), Nat.mod_eq_of_lt (by omega), e1, e2]

theorem thread_ids_range (s T t : Nat) (ht : t < T) (hov : s * T < 2 ^ 64) :
    thread_ids false s T t = List.range' (t * s / T) ((t + 1) * s / T - t * s / T) := by
  unfold thread_ids
  rw [thread_bounds_range s T t ht hov]

theorem thread_ids_cover (s T : Nat) (hT : 1 ≤ T) (hov : s * T < 2 ^ 64) :
    (List.range T).flatMap (fun t => thread_ids false s T t) = List.range s := by
  have h1 : (List.range T).flatMap (fun t => thread_ids false s T t)
      = (List.range T).flatMap
          (fun t => List.range' (t * s / T) ((t + 1) * s / T - t * s / T)) := by
    apply List.flatMap_congr
    intro t ht
    exact thread_ids_range s T t (List.mem_range.1 ht) hov
  rw [h1, flatMap_range'_consecutive (fun t => t * s / T)]
  · simp only [Nat.zero_mul, Nat.zero_div, Nat.sub_zero]
    rw [Nat.mul_comm, Nat.mul_div_cancel _ hT, List.range_eq_range']
  · intro t
    apply Nat.div_le_div_right
    exact Nat.mul_le_mul_right s (Nat.le_succ t)

theorem query_at_eq (reqs : List Nat) (id : Nat) (hlen : reqs.length < 2 ^ 64)
    (hid : id < reqs.length / 2) :
    query_at reqs id = some ((request_of reqs id).2.1, (request_of reqs id).2.2) := by
  show query_at reqs id = some (reqs.getD (2 * id) 0, reqs.getD (2 * id + 1) 0)
  have h1 : 2 * id + 1 < reqs.length := by omega
  have h2 : 2 * id < reqs.length := by omega
  unfold query_at
  rw [Nat.mod_eq_of_lt (by omega : id * 2 < 2 ^ 64),
    Nat.mod_eq_of_lt (by omega : id * 2 + 1 < 2 ^ 64)]
  have e : id * 2 = 2 * id := Nat.mul_comm _ _
  rw [e, List.getElem?_eq_getElem h2, List.getElem?_eq_getElem h1]
  simp [List.getD_eq_getElem?_getD, List.getElem?_eq_getElem h1, List.getElem?_eq_getElem h2]

theorem mem_thread_ids_lt (reqs : List Nat) (T t id : Nat) (hT : 1 ≤ T) (ht : t < T)
    (hov : reqs.length / 2 * T < 2 ^ 64)
    (hid : id ∈ thread_ids false (reqs.length / 2) T t) : id < reqs.length / 2 := by
  have h : id ∈ (List.range T).flatMap (fun t => thread_ids false (reqs.length / 2) T t) :=
    List.mem_flatMap.2 ⟨t, List.mem_range.2 ht, hid⟩
  rw [thread_ids_cover _ T hT hov] at h
  exact List.mem_range.1 h

theorem stats_add_assoc (a b c : stats) : (a.add b).add c = a.add (b.add c) := by
  simp only [stats.add, stats.mk.injEq]
  refine ⟨?_, ?_, ?_, ?_, ?_, ?_, ?_⟩ <;> omega

theorem stats_add_right_comm (a b c : stats) : (a.add b).add c = (a.add c).add b := by
  simp only [stats.add, stats.mk.injEq]
  refine ⟨?_, ?_, ?_, ?_, ?_, ?_, ?_⟩ <;> omega

theorem stats_add_zero_of_add (a b : stats) : (a.add b).add stats.zero = a.add b := by
  simp only [stats.add, stats.zero, stats.mk.injEq]
  refine ⟨?_, ?_, ?_, ?_, ?_, ?_, ?_⟩ <;> omega

theorem update_stats_eq (alg : Nat → Nat → solution) (acc : stats) (q : Nat × Nat × Nat) :
    update_stats acc (alg q.2.1 q.2.2) q.2.2
      = if query_ok alg q then some (acc.add (query_incr alg q)) else none := by
  unfold update_stats query_ok query_incr stats.add
  rcases hgl : (alg q.2.1 q.2.2).path_.getLast? with _ | back
  · have : (alg q.2.1 q.2.2).path_ = [] := List.getLast?_eq_none_iff.1 hgl
    simp [this]
  · have : (alg q.2.1 q.2.2).path_ ≠ [] := by
      intro h
      rw [h] at hgl
      simp at hgl
    simp [this]

theorem foldl_incr_add (alg : Nat → Nat → solution) (tr : List (Nat × Nat × Nat))
    (a b : stats) :
    a.add (tr.foldl (fun x q => x.add (query_incr alg q)) b)
      = tr.foldl (fun x q => x.add (query_incr alg q)) (a.add b) := by
  induction tr generalizing b with
  | nil => rfl
  | cons q tr ih =>
    simp only [List.foldl_cons]
    rw [ih, stats_add_assoc]

theorem foldl_incr_normal (alg : Nat → Nat → solution) (tr : List (Nat × Nat × Nat))
    (a : stats) (ha : a.add stats.zero = a) :
    (tr.foldl (fun x q => x.add (query_incr alg q)) a).add stats.zero
      = tr.foldl (fun x q => x.add (query_incr alg q)) a := by
  induction tr generalizing a with
  | nil => exact ha
  | cons q tr ih =>
    simp only [List.foldl_cons]
    exact ih _ (stats_add_zero_of_add _ _)

theorem foldl_threads_flat (alg : Nat → Nat → solution) (D : Nat → List (Nat × Nat × Nat))
    (L : List Nat) (a : stats) (ha : a.add stats.zero = a) :
    L.foldl (fun total t =>
        total.add ((D t).foldl (fun x q => x.add (query_incr alg q)) stats.zero)) a
      = (L.flatMap D).foldl (fun x q => x.add (query_incr alg q)) a := by
  induction L generalizing a with
  | nil => rfl
  | cons t L ih =>
    simp only [List.foldl_cons, List.flatMap_cons, List.foldl_append]
    rw [foldl_incr_add, ha]
    exact ih _ (foldl_incr_normal alg (D t) a ha)

theorem thread_ids_alloc (s T t : Nat) : thread_ids true s T t = List.range s := by
  simp [thread_ids, thread_bounds, List.range_eq_range']

theorem handles_alloc (T t d : Nat) : handles true T t d = (d % T == t) := by
  simp [handles, bne]

theorem alloc_traces_perm (reqs : List Nat) (T : Nat) (hT : 1 ≤ T) :
    ((List.range T).flatMap (fun t =>
        ((List.range (reqs.length / 2)).filter
          (fun id => (request_of reqs id).2.2 % T == t)).map (request_of reqs))).Perm
      ((List.range (reqs.length / 2)).map (request_of reqs)) := by
  rw [← List.map_flatMap]
  apply List.Perm.map
  refine (flatMap_filter_key_perm (fun id => (request_of reqs id).2.2 % T) _ T).trans ?_
  apply List.Perm.of_eq
  rw [List.filter_eq_self]
  intro id _
  simpa using Nat.mod_lt _ hT

theorem range_traces_eq (reqs : List Nat) (T : Nat) (hT : 1 ≤ T)
    (hov : reqs.length / 2 * T < 2 ^ 64) :
    (List.range T).flatMap (fun t =>
        (thread_ids false (reqs.length / 2) T t).map (request_of reqs))
      = (List.range (reqs.length / 2)).map (request_of reqs) := by
  rw [← List.map_flatMap, thread_ids_cover _ T hT hov]

theorem thread_loop_eq (alg : Nat → Nat → solution) (alloc : Bool) (reqs : List Nat)
    (T t : Nat) (hlen : reqs.length < 2 ^ 64) :
    ∀ (ids : List Nat) (acc : stats) (tr : List (Nat × Nat × Nat)),
      (∀ id ∈ ids, id < reqs.length / 2) →
      thread_loop alg alloc reqs T t ids acc tr
        = if ((ids.filter (fun id => handles alloc T t (request_of reqs id).2.2)).map
              (request_of reqs)).all (query_ok alg) then
            some
              (((ids.filter (fun id => handles alloc T t (request_of reqs id).2.2)).map
                  (request_of reqs)).foldl (fun x q => x.add (query_incr alg q)) acc,
                tr ++ (ids.filter (fun id => handles alloc T t (request_of reqs id).2.2)).map
                  (request_of reqs))
          else none := by
  intro ids
  induction ids with
  | nil =>
    intro acc tr _
    simp [thread_loop]
  | cons id ids ih =>
    intro acc tr hids
    have h1 := query_at_eq reqs id hlen (hids id (List.mem_cons_self _ _))
    have hrest : ∀ x ∈ ids, x < reqs.length / 2 :=
      fun x hx => hids x (List.mem_cons_of_mem _ hx)
    unfold thread_loop
    rw [h1]
    simp only [List.filter_cons]
    by_cases hh : handles alloc T t (request_of reqs id).2.2 = true
    · rw [if_pos hh, if_pos hh, update_stats_eq alg acc (request_of reqs id)]
      by_cases hq : query_ok alg (request_of reqs id) = true
      · rw [if_pos hq]
        simp only [List.map_cons, List.all_cons, hq, Bool.true_and, List.foldl_cons]
        have e : (id, (request_of reqs id).2.1, (request_of reqs id).2.2) = request_of reqs id :=
          rfl
        rw [e, ih _ _ hrest, List.append_assoc]
        rfl
      · rw [if_neg hq]
        simp [hq]
    · rw [if_neg hh, if_neg hh]
      exact ih acc tr hrest

theorem run_thread_eq (algos : List search) (conf : config) (reqs : List Nat) (T t : Nat)
    (a : search) (ha : algos[t]? = some a) (hlen : reqs.length < 2 ^ 64)
    (hids : ∀ id ∈ thread_ids conf.thread_alloc (reqs.length / 2) T t, id < reqs.length / 2)
    (hok : ∀ id, id < reqs.length / 2 → query_ok (a conf) (request_of reqs id) = true) :
    run_thread algos conf reqs T t
      = some
          ((((thread_ids conf.thread_alloc (reqs.length / 2) T t).filter
                (fun id => handles conf.thread_alloc T t (request_of reqs id).2.2)).map
              (request_of reqs)).foldl (fun x q => x.add (query_incr (a conf) q)) stats.zero,
            ((thread_ids conf.thread_alloc (reqs.length / 2) T t).filter
                (fun id => handles conf.thread_alloc T t (request_of reqs id).2.2)).map
              (request_of reqs)) := by
  unfold run_thread
  rw [ha]
  simp only
  rw [thread_loop_eq (a conf) conf.thread_alloc reqs T t hlen _ _ _ hids, if_pos]
  · rfl
  · rw [List.all_eq_true]
    intro q hq
    obtain ⟨id, hid, rfl⟩ := List.mem_map.1 hq
    exact hok id (hids id (List.mem_filter.1 hid).1)

theorem team_foldlM_some (r : Nat → Option (stats × List (Nat × Nat × Nat)))
    (x : Nat → stats) (D : Nat → List (Nat × Nat × Nat)) (L : List Nat) :
    ∀ (a : stats) (trs : List (List (Nat × Nat × Nat))),
      (∀ t ∈ L, r t = some (x t, D t)) →
      L.foldlM (fun total t => (r t).map (fun v => (total.1.add v.1, total.2 ++ [v.2])))
          (a, trs)
        = some (L.foldl (fun tot t => tot.add (x t)) a, trs ++ L.map D) := by
  induction L with
  | nil =>
    intro a trs _
    simp
  | cons t L ih =>
    intro a trs h
    rw [List.foldlM_cons, h t (List.mem_cons_self _ _)]
    simp only [Option.map_some', List.foldl_cons, List.map_cons]
    have h2 := ih (a.add (x t)) (trs ++ [D t]) (fun u hu => h u (List.mem_cons_of_mem _ hu))
    rw [List.append_assoc] at h2
    exact h2

theorem run_search_team_uniform (n : Nat) (alg : search) (conf : config) (reqs : List Nat)
    (D : Nat → List (Nat × Nat × Nat))
    (hpool : conf.threads ≤ n) (hlen : reqs.length < 2 ^ 64)
    (hids : ∀ t, t < conf.threads →
      ∀ id ∈ thread_ids conf.thread_alloc (reqs.length / 2) conf.threads t,
        id < reqs.length / 2)
    (hD : ∀ t, t < conf.threads →
      ((thread_ids conf.thread_alloc (reqs.length / 2) conf.threads t).filter
          (fun id => handles conf.thread_alloc conf.threads t (request_of reqs id).2.2)).map
        (request_of reqs) = D t)
    (hok : ∀ id, id < reqs.length / 2 → query_ok (alg conf) (request_of reqs id) = true)
    (hperm : ((List.range conf.threads).flatMap D).Perm
      ((List.range (reqs.length / 2)).map (request_of reqs))) :
    run_search_team (List.replicate n alg) conf reqs
      = some
          (((List.range (reqs.length / 2)).map (request_of reqs)).foldl
              (fun x q => x.add (query_incr (alg conf) q)) stats.zero,
            (List.range conf.threads).map D) := by
  have hthread : ∀ t ∈ List.range conf.threads,
      run_thread (List.replicate n alg) conf reqs conf.threads t
        = some ((D t).foldl (fun x q => x.add (query_incr (alg conf) q)) stats.zero, D t) := by
    intro t ht
    have ht2 : t < conf.threads := List.mem_range.1 ht
    have ha : (List.replicate n alg)[t]? = some alg := by
      rw [List.getElem?_replicate, if_pos (by omega)]
    rw [run_thread_eq _ conf reqs conf.threads t alg ha hlen (hids t ht2) hok, hD t ht2]
  unfold run_search_team
  rw [team_foldlM_some _ _ D _ stats.zero [] hthread,
    foldl_threads_flat (alg conf) D _ stats.zero rfl]
  haveI : RightCommutative (fun (x : stats) (q : Nat × Nat × Nat) =>
      x.add (query_incr (alg conf) q)) := ⟨fun a b c => stats_add_right_comm a _ _⟩
  rw [hperm.foldl_eq]
  rfl

theorem filter_handles_false (reqs : List Nat) (T t : Nat) (ids : List Nat) :
    ids.filter (fun id => handles false T t (request_of reqs id).2.2) = ids := by
  rw [List.filter_eq_self]
  intro id _
  rfl

/-- C5, the claim as stated fails, in two ways. With three threads,
`thread_alloc` unset and a pool `algos` of two search instances, request 2
falls in the range of thread 2, whose `algos.at(2)` throws: that thread
searches nothing and `run_search` does not come to a reply. And with one
thread and two requests, a search that returns an empty path for the first
request makes the loop take `back()` of that path, after which nothing is
defined: the second request of the range is not known to be searched. -/
theorem range_dispatch_beyond_pool :
    1 ≤ three_threads_conf.threads ∧ three_threads_conf.thread_alloc = false
      ∧ thread_ids false ([0, 3, 1, 2, 2, 0].length / 2) 3 2 = [2]
      ∧ run_thread [direct_alg, direct_alg] three_threads_conf [0, 3, 1, 2, 2, 0] 3 2 = none
      ∧ run_search_team [direct_alg, direct_alg] three_threads_conf [0, 3, 1, 2, 2, 0] = none
      ∧ run_search [direct_alg, direct_alg] three_threads_conf [0, 3, 1, 2, 2, 0] = none
      ∧ 1 ≤ single_conf.threads ∧ single_conf.threads ≤ [gave_up_alg].length
      ∧ single_conf.thread_alloc = false
      ∧ (gave_up_alg single_conf 0 3).path_ = []
      ∧ run_thread [gave_up_alg] single_conf [0, 3, 1, 2] 1 0 = none
      ∧ run_search_team [gave_up_alg] single_conf [0, 3, 1, 2] = none := by
  refine ⟨by decide, by decide, by decide, by decide, by decide, by decide, by decide,
    by decide, by decide, by decide, by decide, by decide⟩

/-- C5, amended. Range dispatch: with `thread_alloc` unset, a team of `T ≥ 1`
threads not larger than the pool `algos`, `s = reqs.size() / 2` requests with
`s * T` within `size_t`, and searches that return non-empty paths, the
parallel region of `run_search` ends normally and the reply holds the summed
counters; thread `t` hands to `get_path` exactly the requests of indices
`[t*s/T, (t+1)*s/T)`, in order; the requests searched by the threads 0 to
`T-1`, put end to end, are the batch in its order, each request once; the
bounds `from` and `to` are `t*s/T` and `(t+1)*s/T`, and the ranges put end to
end are exactly `0, 1, .., s-1`; and every read of `reqs` is within bounds. -/
theorem range_dispatch (algos : List search) (conf : config) (reqs : List Nat)
    (hT : 1 ≤ conf.threads) (hpool : conf.threads ≤ algos.length)
    (halloc : conf.thread_alloc = false)
    (hlen : reqs.length < 2 ^ 64) (hov : reqs.length / 2 * conf.threads < 2 ^ 64)
    (hok : ∀ a ∈ algos, ∀ id, id < reqs.length / 2 →
      query_ok (a conf) (request_of reqs id) = true) :
    (∃ total,
        run_search_team algos conf reqs
            = some
                (total,
                  (List.range conf.threads).map (fun t =>
                    (List.range' (t * (reqs.length / 2) / conf.threads)
                        ((t + 1) * (reqs.length / 2) / conf.threads
                          - t * (reqs.length / 2) / conf.threads)).map (request_of reqs)))
          ∧ run_search algos conf reqs = some total)
      ∧ ((List.range conf.threads).map (fun t =>
            (List.range' (t * (reqs.length / 2) / conf.threads)
                ((t + 1) * (reqs.length / 2) / conf.threads
                  - t * (reqs.length / 2) / conf.threads)).map (request_of reqs))).flatten
          = (List.range (reqs.length / 2)).map (request_of reqs)
      ∧ (∀ t, t < conf.threads →
          thread_bounds false (reqs.length / 2) conf.threads t
            = (t * (reqs.length / 2) / conf.threads,
                (t + 1) * (reqs.length / 2) / conf.threads))
      ∧ (List.range conf.threads).flatMap (fun t =>
            List.range' (t * (reqs.length / 2) / conf.threads)
              ((t + 1) * (reqs.length / 2) / conf.threads
                - t * (reqs.length / 2) / conf.threads))
          = List.range (reqs.length / 2)
      ∧ (∀ t, t < conf.threads →
          ∀ id ∈ List.range' (t * (reqs.length / 2) / conf.threads)
              ((t + 1) * (reqs.length / 2) / conf.threads
                - t * (reqs.length / 2) / conf.threads),
            2 * id + 1 < reqs.length
              ∧ query_at reqs id
                = some ((request_of reqs id).2.1, (request_of reqs id).2.2)) := by
  have hids : ∀ t, t < conf.threads →
      ∀ id ∈ thread_ids false (reqs.length / 2) conf.threads t, id < reqs.length / 2 :=
    fun t ht id hid => mem_thread_ids_lt reqs conf.threads t id hT ht hov hid
  have hthread : ∀ t ∈ List.range conf.threads,
      run_thread algos conf reqs conf.threads t
        = some
            ((match algos[t]? with
              | some a =>
                ((List.range' (t * (reqs.length / 2) / conf.threads)
                    ((t + 1) * (reqs.length / 2) / conf.threads
                      - t * (reqs.length / 2) / conf.threads)).map (request_of reqs)).foldl
                  (fun x q => x.add (query_incr (a conf) q)) stats.zero
              | none => stats.zero),
              (List.range' (t * (reqs.length / 2) / conf.threads)
                  ((t + 1) * (reqs.length / 2) / conf.threads
                    - t * (reqs.length / 2) / conf.threads)).map (request_of reqs)) := by
    intro t ht
    have ht2 : t < conf.threads := List.mem_range.1 ht
    have ht3 : t < algos.length := by omega
    have ha : algos[t]? = some algos[t] := List.getElem?_eq_getElem ht3
    rw [run_thread_eq algos conf reqs conf.threads t algos[t] ha hlen
        (by rw [halloc]; exact hids t ht2) (hok _ (List.getElem_mem ht3)), ha]
    simp only [halloc, filter_handles_false, thread_ids_range _ conf.threads t ht2 hov]
  have hteam := team_foldlM_some _ _ _ _ stats.zero [] hthread
  have hcover := thread_ids_cover (reqs.length / 2) conf.threads hT hov
  have hcover2 : (List.range conf.threads).flatMap (fun t =>
        List.range' (t * (reqs.length / 2) / conf.threads)
          ((t + 1) * (reqs.length / 2) / conf.threads
            - t * (reqs.length / 2) / conf.threads))
      = List.range (reqs.length / 2) := by
    rw [← hcover]
    apply List.flatMap_congr
    intro t ht
    exact (thread_ids_range _ conf.threads t (List.mem_range.1 ht) hov).symm
  refine ⟨⟨_, hteam, ?_⟩, ?_, fun t ht => thread_bounds_range _ conf.threads t ht hov,
    hcover2, ?_⟩
  · unfold run_search run_search_team
    rw [hteam]
    rfl
  · rw [← List.flatMap_def, ← List.map_flatMap, hcover2]
  · intro t ht id hid
    have hlt : id < reqs.length / 2 := by
      apply hids t ht
      rw [thread_ids_range _ conf.threads t ht hov]
      exact hid
    exact ⟨by omega, query_at_eq reqs id hlen hlt⟩

/-- Witness of C5: three requests dispatched over two threads with a pool of
two search instances; evaluated, thread 0 searches request 0, thread 1 the
requests 1 and 2, and the reply counts three finished requests. -/
theorem range_dispatch_witness :
    1 ≤ ({ alloc_conf with thread_alloc := false } : config).threads
      ∧ ({ alloc_conf with thread_alloc := false } : config).threads
          ≤ [direct_alg, direct_alg].length
      ∧ ({ alloc_conf with thread_alloc := false } : config).thread_alloc = false
      ∧ [0, 3, 1, 2, 2, 0].length < 2 ^ 64
      ∧ [0, 3, 1, 2, 2, 0].length / 2 * 2 < 2 ^ 64
      ∧ (∃ total,
          run_search_team [direct_alg, direct_alg] { alloc_conf with thread_alloc := false }
              [0, 3, 1, 2, 2, 0]
            = some
                (total,
                  (List.range 2).map (fun t =>
                    (List.range' (t * ([0, 3, 1, 2, 2, 0].length / 2) / 2)
                        ((t + 1) * ([0, 3, 1, 2, 2, 0].length / 2) / 2
                          - t * ([0, 3, 1, 2, 2, 0].length / 2) / 2)).map
                      (request_of [0, 3, 1, 2, 2, 0])))
            ∧ run_search [direct_alg, direct_alg] { alloc_conf with thread_alloc := false }
                [0, 3, 1, 2, 2, 0] = some total)
      ∧ run_search_team [direct_alg, direct_alg] { alloc_conf with thread_alloc := false }
          [0, 3, 1, 2, 2, 0]
        = some (⟨3, 6, 0, 0, 9, 6, 3⟩, [[(0, 0, 3)], [(1, 1, 2), (2, 2, 0)]]) :=
  ⟨by decide, by decide, rfl, by decide, by decide,
    (range_dispatch [direct_alg, direct_alg] { alloc_conf with thread_alloc := false }
      [0, 3, 1, 2, 2, 0] (by decide) (by decide) rfl (by decide) (by decide)
      (by
        intro a ha id _
        have ha2 : a = direct_alg := by simpa using ha
        subst ha2
        rfl)).1,
    by decide⟩

/-- C6, the claim as stated fails, in two ways. With three threads,
`thread_alloc` set and a pool `algos` of two search instances, request 1 has
target 2 and so belongs to thread 2, whose `algos.at(2)` throws: the request
is searched by no thread and `run_search` does not come to a reply. And with
two threads, a search that returns an empty path makes thread 1, to which the
first request (target 3) belongs, take `back()` of that path, after which
nothing is defined: no counters are summed. -/
theorem modulo_dispatch_beyond_pool :
    1 ≤ three_threads_alloc_conf.threads ∧ three_threads_alloc_conf.thread_alloc = true
      ∧ (request_of [0, 3, 1, 2, 2, 0] 1).2.2 % 3 = 2
      ∧ run_thread [direct_alg, direct_alg] three_threads_alloc_conf [0, 3, 1, 2, 2, 0] 3 2
          = none
      ∧ run_search_team [direct_alg, direct_alg] three_threads_alloc_conf [0, 3, 1, 2, 2, 0]
          = none
      ∧ run_search [direct_alg, direct_alg] three_threads_alloc_conf [0, 3, 1, 2, 2, 0]
          = none
      ∧ 1 ≤ alloc_conf.threads ∧ alloc_conf.threads ≤ [gave_up_alg, gave_up_alg].length
      ∧ alloc_conf.thread_alloc = true
      ∧ (gave_up_alg alloc_conf 0 3).path_ = []
      ∧ (request_of [0, 3, 1, 2] 0).2.2 % 2 = 1
      ∧ run_thread [gave_up_alg, gave_up_alg] alloc_conf [0, 3, 1, 2] 2 1 = none
      ∧ run_search_team [gave_up_alg, gave_up_alg] alloc_conf [0, 3, 1, 2] = none
      ∧ run_search [gave_up_alg, gave_up_alg] alloc_conf [0, 3, 1, 2] = none := by
  refine ⟨by decide, by decide, by decide, by decide, by decide, by decide, by decide,
    by decide, by decide, by decide, by decide, by decide, by decide, by decide⟩

/-- C6, amended. Modulo dispatch: with `thread_alloc` set, the pool `algos`
filled as `run_table_search` and `run_table` fill it (`n` instances made by
one and the same `new` expression), a team of `T ≥ 1` threads not larger than
the pool, and searches that return non-empty paths, the parallel region of
`run_search` ends normally; thread `t` hands to `get_path` exactly the
requests whose target has `target mod T = t`, in batch order; the lists of the
`T` threads together are a rearrangement of the whole batch, so each request
is searched by exactly one thread; and the summed counters of the reply are
the sum over the whole batch, the same as those of the range dispatch of the
same batch by the same configured instances (`s * T` within `size_t`). -/
theorem modulo_dispatch (n : Nat) (alg : search) (conf : config) (reqs : List Nat)
    (hT : 1 ≤ conf.threads) (hpool : conf.threads ≤ n)
    (halloc : conf.thread_alloc = true)
    (hlen : reqs.length < 2 ^ 64) (hov : reqs.length / 2 * conf.threads < 2 ^ 64)
    (hok : ∀ id, id < reqs.length / 2 → query_ok (alg conf) (request_of reqs id) = true) :
    run_search_team (List.replicate n alg) conf reqs
        = some
            (((List.range (reqs.length / 2)).map (request_of reqs)).foldl
                (fun x q => x.add (query_incr (alg conf) q)) stats.zero,
              (List.range conf.threads).map (fun t =>
                ((List.range (reqs.length / 2)).filter
                  (fun id => (request_of reqs id).2.2 % conf.threads == t)).map
                    (request_of reqs)))
      ∧ (∀ id, id < reqs.length / 2 → ∀ t, t < conf.threads →
          (request_of reqs id ∈ ((List.range (reqs.length / 2)).filter
              (fun id => (request_of reqs id).2.2 % conf.threads == t)).map (request_of reqs)
            ↔ (request_of reqs id).2.2 % conf.threads = t))
      ∧ ((List.range conf.threads).flatMap (fun t =>
          ((List.range (reqs.length / 2)).filter
            (fun id => (request_of reqs id).2.2 % conf.threads == t)).map
              (request_of reqs))).Perm
          ((List.range (reqs.length / 2)).map (request_of reqs))
      ∧ run_search_team (List.replicate n (fun _ => alg conf))
            { conf with thread_alloc := false } reqs
          = some
              (((List.range (reqs.length / 2)).map (request_of reqs)).foldl
                  (fun x q => x.add (query_incr (alg conf) q)) stats.zero,
                (List.range conf.threads).map (fun t =>
                  (thread_ids false (reqs.length / 2) conf.threads t).map (request_of reqs)))
      ∧ run_search (List.replicate n alg) conf reqs
          = run_search (List.replicate n (fun _ => alg conf))
              { conf with thread_alloc := false } reqs
      ∧ run_search (List.replicate n alg) conf reqs
          = some (((List.range (reqs.length / 2)).map (request_of reqs)).foldl
              (fun x q => x.add (query_incr (alg conf) q)) stats.zero) := by
  have h1 := run_search_team_uniform n alg conf reqs
    (fun t => ((List.range (reqs.length / 2)).filter
      (fun id => (request_of reqs id).2.2 % conf.threads == t)).map (request_of reqs))
    hpool hlen
    (fun t _ id hid => by
      rw [halloc, thread_ids_alloc] at hid
      exact List.mem_range.1 hid)
    (fun t _ => by
      rw [halloc, thread_ids_alloc]
      simp only [handles_alloc])
    hok (alloc_traces_perm reqs conf.threads hT)
  have h2 := run_search_team_uniform n (fun _ => alg conf)
    { conf with thread_alloc := false } reqs
    (fun t => (thread_ids false (reqs.length / 2) conf.threads t).map (request_of reqs))
    hpool hlen
    (fun t ht id hid => mem_thread_ids_lt reqs conf.threads t id hT ht hov hid)
    (fun t _ => by
      show ((thread_ids false (reqs.length / 2) conf.threads t).filter
        (fun id => handles false conf.threads t (request_of reqs id).2.2)).map
          (request_of reqs) = _
      rw [filter_handles_false])
    hok (List.Perm.of_eq (range_traces_eq reqs conf.threads hT hov))
  refine ⟨h1, ?_, alloc_traces_perm reqs conf.threads hT, h2, ?_, ?_⟩
  · intro id hid t _
    constructor
    · intro h
      obtain ⟨id2, h2, h3⟩ := List.mem_map.1 h
      have h4 : id2 = id := congrArg Prod.fst h3
      subst h4
      simpa using (List.mem_filter.1 h2).2
    · intro h
      exact List.mem_map.2
        ⟨id, List.mem_filter.2 ⟨List.mem_range.2 hid, by simpa using h⟩, rfl⟩
  · unfold run_search
    rw [h1, h2]
    rfl
  · unfold run_search
    rw [h1]
    rfl

/-- Witness of C6: three requests, two threads, a pool of two search instances
built alike; evaluated, thread 0 searches the requests 1 and 2 (targets 2 and
0), thread 1 request 0 (target 3), and the reply counts three finished
requests. -/
theorem modulo_dispatch_witness :
    1 ≤ alloc_conf.threads ∧ alloc_conf.threads ≤ 2 ∧ alloc_conf.thread_alloc = true
      ∧ [0, 3, 1, 2, 2, 0].length < 2 ^ 64
      ∧ [0, 3, 1, 2, 2, 0].length / 2 * alloc_conf.threads < 2 ^ 64
      ∧ run_search_team (List.replicate 2 direct_alg) alloc_conf [0, 3, 1, 2, 2, 0]
          = some
              (((List.range ([0, 3, 1, 2, 2, 0].length / 2)).map
                  (request_of [0, 3, 1, 2, 2, 0])).foldl
                  (fun x q => x.add (query_incr (direct_alg alloc_conf) q)) stats.zero,
                (List.range alloc_conf.threads).map (fun t =>
                  ((List.range ([0, 3, 1, 2, 2, 0].length / 2)).filter
                    (fun id =>
                      (request_of [0, 3, 1, 2, 2, 0] id).2.2 % alloc_conf.threads == t)).map
                      (request_of [0, 3, 1, 2, 2, 0])))
      ∧ run_search_team [direct_alg, direct_alg] alloc_conf [0, 3, 1, 2, 2, 0]
          = some (⟨3, 6, 0, 0, 9, 6, 3⟩, [[(1, 1, 2), (2, 2, 0)], [(0, 0, 3)]])
      ∧ run_search [direct_alg, direct_alg] alloc_conf [0, 3, 1, 2, 2, 0]
          = some ⟨3, 6, 0, 0, 9, 6, 3⟩ :=
  ⟨by decide, by decide, rfl, by decide, by decide,
    (modulo_dispatch 2 direct_alg alloc_conf [0, 3, 1, 2, 2, 0] (by decide) (by decide) rfl
      (by decide) (by decide) (by intro id _; rfl)).1,
    by decide, by decide⟩

/-- C7. Perturbation source, evaluated on a frame whose queries file holds
three requests and whose diff file holds the perturbation `0 1 100`: the list
handed to `g->perturb` is read from the queries file (two triples made of
request endpoints and one default element) and stays the same when the diff
file holds `2 3 7` instead; the diff file itself holds the one triple
`(0, 1, 100)`. -/
theorem perturbation_source_sample :
    (reader_frame (fun _ c => (c, true)) id (0, ⟨0, 0⟩) sample_fs true
          (initial_state single_conf) sample_frame).map (fun r => r.2.perturbed)
        = some (some [(0, ⟨1, 1⟩), (2, ⟨2, 3⟩), (0, ⟨0, 0⟩)])
      ∧ (reader_frame (fun _ c => (c, true)) id (0, ⟨0, 0⟩) sample_fs_other true
          (initial_state single_conf) sample_frame).map (fun r => r.2.perturbed)
        = some (some [(0, ⟨1, 1⟩), (2, ⟨2, 3⟩), (0, ⟨0, 0⟩)])
      ∧ (sample_fs sample_frame.diff).map diff_file_triples = some [(0, ⟨1, 100⟩)]
      ∧ (sample_fs_other sample_frame.diff).map diff_file_triples = some [(2, ⟨3, 7⟩)] := by
  decide

/-- C8. Finished flag, evaluated on a batch of one request whose search gives
up with an empty path: the update of `finished` takes `back()` of the empty
path, which is undefined, so no counter value results and `run_search` has no
defined reply; a search that reaches the target counts 1. -/
theorem finished_flag_sample :
    (gave_up_alg single_conf 0 3).path_ = []
      ∧ update_stats stats.zero (gave_up_alg single_conf 0 3) 3 = none
      ∧ run_search [gave_up_alg] single_conf [0, 3] = none
      ∧ (run_search [direct_alg] single_conf [0, 3]).map (fun r => r.finished) = some 1 := by
  decide

end fifo_auto

namespace make_cpd_auto

/-- C9. Sidecar row shape, evaluated for `melb-both.xy`, method `div`, key 9000,
worker 4, block 16: `write_conf` emits two lines, the header of six names and
a data row of seven fields in which the worker id stands twice. -/
theorem write_conf_sample :
    write_conf "melb-both.xy".toList "div".toList 9000 4 16
        = ("xyfile,method,methodkey,wid,bid,cpdtype\n"
            ++ "melb-both.xy,div,9000,4,4,16,reverse-table\n").toList
      ∧ (lines_of (write_conf "melb-both.xy".toList "div".toList 9000 4 16)).length = 2
      ∧ (lines_of (write_conf "melb-both.xy".toList "div".toList 9000 4 16)).map
            (fun l => (fields_of l).length) = [6, 7]
      ∧ (lines_of (write_conf "melb-both.xy".toList "div".toList 9000 4 16)).map fields_of
          = [["xyfile".toList, "method".toList, "methodkey".toList, "wid".toList,
                "bid".toList, "cpdtype".toList],
              ["melb-both.xy".toList, "div".toList, "9000".toList, "4".toList, "4".toList,
                "16".toList, "reverse-table".toList]] := by
  decide

/-- C10. CPD file naming, evaluated for worker 4 and block 16: with an empty
`outdir` the file `melb-both.xy` gives `melb-both-4-16.cpd`; with `outdir = out`
a graph path with a directory part gives a file of that name under `out`; with
`outdir = out` and the bare file name `melb-both.xy` the call
`res.substr(res.find_last_of(..))` is made at `npos` and throws. -/
theorem format_cpdfile_sample :
    format_cpdfile "melb-both.xy".toList [] 4 16 = some "melb-both-4-16.cpd".toList
      ∧ format_cpdfile "data/melb-both.xy".toList "out".toList 4 16
          = some "out//melb-both-4-16.cpd".toList
      ∧ find_last_of "melb-both".toList ['\\', '/'] = npos
      ∧ format_cpdfile "melb-both.xy".toList "out".toList 4 16 = none := by
  decide

end make_cpd_auto

namespace fifo_auto

theorem reader_frame_conf_of_throw (read_conf : String → config → config × Bool)
    (sanitise_conf : config → config) (dflt : Nat × edge) (fs : String → Option tokens)
    (g_present : Bool) (st st1 : reader_state) (fr : frame) (eff : frame_effect) (c : config)
    (hthrow : read_conf fr.conf_record st.conf = (c, false))
    (hrun : reader_frame read_conf sanitise_conf dflt fs g_present st fr = some (st1, eff)) :
    st1.conf = c ∧ ∀ x, eff.searched = some x → x.1 = c := by
  have hc : read_conf fr.raw.conf_record st.conf = (c, false) := hthrow
  unfold reader_frame reader_turn at hrun
  rw [hc] at hrun
  simp only at hrun
  split at hrun
  · cases hrun
  · split at hrun
    · cases hrun
    · simp only [Option.some.injEq, Prod.mk.injEq] at hrun
      obtain ⟨h1, h2⟩ := hrun
      subst h1 h2
      refine ⟨rfl, ?_⟩
      intro x hx
      simp only at hx
      split at hx
      · cases hx
        rfl
      · cases hx

/-- C11. Malformed config fallback, evaluated on two frames in a row: the first
has a well-formed config record (two threads, `thread_alloc` set), the second a
malformed one. The read of the second record throws, and the configuration
handed to `run_search` for the second frame is that of the first frame, not
the default-constructed one; the queries of the second frame are processed.
Received alone, the second frame runs under the default configuration. -/
theorem malformed_config_sample :
    (sample_read_conf second_frame.conf_record alloc_conf).2 = false
      ∧ (reader_run sample_read_conf id (0, ⟨0, 0⟩) stale_fs false
            (initial_state single_conf) [first_frame, second_frame]).map
          (fun r => r.2.map (fun eff => eff.searched))
        = some [some (alloc_conf, "out.csv", [5, 6, 7, 8]),
            some (alloc_conf, "out.csv", [5, 6, 7, 8])]
      ∧ (reader_run sample_read_conf id (0, ⟨0, 0⟩) stale_fs false
            (initial_state single_conf) [second_frame]).map
          (fun r => r.2.map (fun eff => eff.searched))
        = some [some (single_conf, "out.csv", [5, 6, 7, 8])]
      ∧ alloc_conf ≠ single_conf := by
  refine ⟨by decide, by decide, by decide, by decide⟩

/-- C12, the claim as stated fails: for a frame whose queries file cannot be
opened and whose diff path is not `-`, with a graph, `reader` drops the search
but still calls `g->perturb` (with an empty list), so the graph's version goes
from 7 to 8. -/
theorem bad_queries_version_bumped :
    stale_fs bad_queries_frame.queries = none
      ∧ (reader_frame sample_read_conf id (0, ⟨0, 0⟩) stale_fs true
            (initial_state single_conf) bad_queries_frame).map (fun r => r.2)
          = some { perturbed := some [], searched := none }
      ∧ (reader_frame sample_read_conf id (0, ⟨0, 0⟩) stale_fs true
            (initial_state single_conf) bad_queries_frame).map
            (fun r => (graph_after_frame sample_graph true r.2).version)
          = some 8
      ∧ sample_graph.version = 7 := by
  refine ⟨by decide, by decide, by decide, by decide⟩

theorem reader_frame_bad_queries (read_conf : String → config → config × Bool)
    (sanitise_conf : config → config) (dflt : Nat × edge) (fs : String → Option tokens)
    (g_present : Bool) (st : reader_state) (fr : frame) (hbad : fs fr.queries = none) :
    reader_frame read_conf sanitise_conf dflt fs g_present st fr
      = some
          ({ conf :=
                match read_conf fr.conf_record st.conf with
                | (c, true) => sanitise_conf c
                | (c, false) => c
             fifo_out := fr.fifo_out
             queries := fr.queries
             diff := fr.diff
             lines := []
             edges := if (fr.diff != "-" && g_present) = true then [] else st.edges },
            { perturbed := if (fr.diff != "-" && g_present) = true then some [] else none
              searched := none }) := by
  by_cases hd : (fr.diff != "-" && g_present) = true
  · simp only [reader_frame, reader_turn, frame.raw, read_paths, hbad, hd, if_true]
    rfl
  · simp only [reader_frame, reader_turn, frame.raw, read_paths, hbad, hd]
    rfl

theorem reader_run_cons (read_conf : String → config → config × Bool)
    (sanitise_conf : config → config) (dflt : Nat × edge) (fs : String → Option tokens)
    (g_present : Bool) (st : reader_state) (fr : frame) (frs : List frame) :
    reader_run read_conf sanitise_conf dflt fs g_present st (fr :: frs)
      = match reader_frame read_conf sanitise_conf dflt fs g_present st fr with
        | none => none
        | some (st1, eff) =>
          match reader_run read_conf sanitise_conf dflt fs g_present st1 frs with
          | none => none
          | some (st2, effs) => some (st2, eff :: effs) := by
  rfl

/-- C12, amended. For every frame whose queries file cannot be opened, the
turn of the loop ends normally with `lines` empty, `run_search` is not
called (so nothing is written to the reply path), and the loop goes on with
the frames that follow; when the diff path is `-` or there is no graph,
`g->perturb` is not called either and the graph is left as it was. -/
theorem bad_queries_dropped (read_conf : String → config → config × Bool)
    (sanitise_conf : config → config) (dflt : Nat × edge) (fs : String → Option tokens)
    (g_present : Bool) (st : reader_state) (fr : frame) (g : xy_graph)
    (hbad : fs fr.queries = none) :
    ∃ st1 eff,
      reader_frame read_conf sanitise_conf dflt fs g_present st fr = some (st1, eff)
        ∧ eff.searched = none
        ∧ st1.lines = []
        ∧ (∀ frs, reader_run read_conf sanitise_conf dflt fs g_present st (fr :: frs)
            = (reader_run read_conf sanitise_conf dflt fs g_present st1 frs).map
                (fun r => (r.1, eff :: r.2)))
        ∧ ((fr.diff = "-" ∨ g_present = false) →
            eff.perturbed = none ∧ graph_after_frame g g_present eff = g) := by
  have h := reader_frame_bad_queries read_conf sanitise_conf dflt fs g_present st fr hbad
  refine ⟨_, _, h, rfl, rfl, ?_, ?_⟩
  · intro frs
    rw [reader_run_cons, h]
    simp only
    rcases reader_run read_conf sanitise_conf dflt fs g_present _ frs with
      _ | ⟨st2, effs⟩ <;> rfl
  · intro hc
    have hd : ¬ (fr.diff != "-" && g_present) = true := by
      rcases hc with hc | hc
      · simp [hc]
      · simp [hc]
    simp only [hd, if_false, graph_after_frame]
    exact ⟨rfl, rfl⟩

/-- Witness of C12: the frame with the missing queries file and diff path `-`. -/
theorem bad_queries_dropped_witness :
    stale_fs "missing.txt" = none
      ∧ ∃ st1 eff,
        reader_frame sample_read_conf id (0, ⟨0, 0⟩) stale_fs true (initial_state single_conf)
            { bad_queries_frame with diff := "-" } = some (st1, eff)
          ∧ eff.searched = none
          ∧ st1.lines = []
          ∧ (∀ frs, reader_run sample_read_conf id (0, ⟨0, 0⟩) stale_fs true
                (initial_state single_conf) ({ bad_queries_frame with diff := "-" } :: frs)
              = (reader_run sample_read_conf id (0, ⟨0, 0⟩) stale_fs true st1 frs).map
                  (fun r => (r.1, eff :: r.2)))
          ∧ (("-" = "-" ∨ true = false) →
              eff.perturbed = none ∧ graph_after_frame sample_graph true eff = sample_graph) :=
  ⟨by decide,
    bad_queries_dropped sample_read_conf id (0, ⟨0, 0⟩) stale_fs true
      (initial_state single_conf) { bad_queries_frame with diff := "-" } sample_graph
      (by decide)⟩

end fifo_auto

namespace fifo_auto


theorem length_resize {α : Type} (v : List α) (n : Nat) (d : α) : (resize v n d).length = n := by
  simp only [resize, List.length_append, List.length_take, List.length_replicate]
  omega

theorem read_triples_isSome (toks : tokens) (e1 e2 : List (Nat × edge)) (i : Nat)
    (hlen : e1.length = e2.length) :
    (read_triples toks e1 i).isSome = (read_triples toks e2 i).isSome := by
  induction toks, e1, i using read_triples.induct generalizing e2 with
  | case1 h t w rest edges i hv hi ih =>
    rw [read_triples, read_triples, if_pos hv, if_pos hv, if_pos hi, if_pos (hlen ▸ hi)]
    exact ih _ (by simp [hlen])
  | case2 h t w rest edges i hv hi =>
    rw [read_triples, read_triples, if_pos hv, if_pos hv, if_neg hi, if_neg (hlen ▸ hi)]
  | case3 h t w rest edges i hv =>
    rw [read_triples, read_triples, if_neg hv, if_neg hv]
    rfl
  | case4 toks edges i hne =>
    rw [read_triples, read_triples]
    · rfl
    · exact hne
    · exact hne

theorem take_set_set (l1 l2 : List Nat) (i o d : Nat) (hlen : l1.length = l2.length)
    (ht : l1.take i = l2.take i) :
    ((l1.set i o).set (i + 1) d).take (i + 2) = ((l2.set i o).set (i + 1) d).take (i + 2) := by
  apply List.ext_getElem?
  intro j
  simp only [List.getElem?_take, List.getElem?_set, List.length_set, hlen]
  by_cases h1 : i + 1 = j
  · simp [h1]
  · by_cases h2 : i = j
    · simp [h1, h2]
    · simp only [h1, h2, if_false]
      by_cases h3 : j < i + 2
      · have h4 : j < i := by omega
        have h5 := congrArg (fun l => l[j]?) ht
        simp only [List.getElem?_take, h4, if_true] at h5
        simp [h3, h5]
      · simp [h3]

theorem read_pairs_independent (k : Nat) :
    ∀ (toks : tokens) (l1 l2 : List Nat) (i : Nat),
      l1.length = l2.length → i + 2 * k = l1.length → l1.take i = l2.take i →
      2 * k ≤ toks.length → (∀ v ∈ toks.take (2 * k), v < 2 ^ 64) →
      read_pairs toks l1 i = read_pairs toks l2 i := by
  induction k with
  | zero =>
    intro toks l1 l2 i hlen hi ht _ _
    have h1 : l1 = l2 := by
      have e1 : l1.take i = l1 := List.take_of_length_le (by omega)
      have e2 : l2.take i = l2 := List.take_of_length_le (by omega)
      rw [e1, e2] at ht
      exact ht
    rw [h1]
  | succ k ih =>
    intro toks l1 l2 i hlen hi ht htl hv
    match toks, htl, hv with
    | o :: d :: rest, htl, hv =>
      have ho : o < 2 ^ 64 := hv o (by simp [Nat.mul_succ])
      have hd : d < 2 ^ 64 := hv d (by simp [Nat.mul_succ])
      have hi1 : i < l1.length ∧ i + 1 < l1.length := by omega
      have hi2 : i < l2.length ∧ i + 1 < l2.length := by omega
      have e1 : read_pairs (o :: d :: rest) l1 i
          = read_pairs rest ((l1.set i o).set (i + 1) d) (i + 2) := by
        rw [read_pairs, if_pos ⟨ho, hd⟩, if_pos hi1]
      have e2 : read_pairs (o :: d :: rest) l2 i
          = read_pairs rest ((l2.set i o).set (i + 1) d) (i + 2) := by
        rw [read_pairs, if_pos ⟨ho, hd⟩, if_pos hi2]
      rw [e1, e2]
      apply ih
      · simp [hlen]
      · simp only [List.length_set]
        omega
      · exact take_set_set l1 l2 i o d hlen ht
      · simp only [List.length_cons] at htl
        omega
      · intro v hvm
        apply hv
        have : 2 * (k + 1) = 2 * k + 1 + 1 := by ring
        rw [this, List.take_succ_cons, List.take_succ_cons]
        exact List.mem_cons_of_mem _ (List.mem_cons_of_mem _ hvm)
    | [], htl, _ => simp at htl
    | [_], htl, _ =>
      simp only [List.length_singleton] at htl
      omega

theorem read_queries_independent (toks : tokens) (l1 l2 : List Nat)
    (hc : pairs_complete toks = true) : read_queries toks l1 = read_queries toks l2 := by
  match toks, hc with
  | [], _ =>
    simp [read_queries, read_count, resize]
  | s :: rest, hc =>
    simp only [pairs_complete, Bool.and_eq_true, decide_eq_true_eq, List.all_eq_true] at hc
    obtain ⟨⟨hs, hlen⟩, hv⟩ := hc
    have hs2 : s < 2 ^ 64 := by omega
    have hmod : (s * 2) % 2 ^ 64 = 2 * s := by
      rw [Nat.mod_eq_of_lt (by omega)]
      omega
    simp only [read_queries, read_count, if_pos hs2, hmod, if_true]
    apply read_pairs_independent s
    · rw [length_resize, length_resize]
    · rw [length_resize]
      omega
    · simp
    · exact hlen
    · exact hv

theorem reader_frame_query_vector (read_conf : String → config → config × Bool)
    (sanitise_conf : config → config) (dflt : Nat × edge) (fs : String → Option tokens)
    (g_present : Bool) (st : reader_state) (fr : frame) (toks : tokens)
    (hfs : fs fr.queries = some toks) :
    (reader_frame read_conf sanitise_conf dflt fs g_present st fr).map
        (fun r => r.2.query_vector)
      = match read_queries toks st.lines with
        | none => none
        | some lines =>
          if (fr.diff != "-" && g_present) = true
              ∧ (read_perturbations dflt toks st.edges).isSome = false then none
          else some (if lines.length > 0 then some lines else none) := by
  unfold reader_frame reader_turn
  simp only [frame.raw, read_paths, hfs]
  rcases read_queries toks st.lines with _ | lines
  · rfl
  · by_cases hd : (fr.diff != "-" && g_present) = true
    · rcases hp : read_perturbations dflt toks st.edges with _ | edges
      · simp [hd, hp]
      · by_cases hl : lines.length > 0 <;> simp [hd, hp, hl, frame_effect.query_vector]
    · by_cases hl : lines.length > 0 <;> simp [hd, hl, frame_effect.query_vector]

theorem read_perturbations_isSome (dflt : Nat × edge) (toks : tokens)
    (e1 e2 : List (Nat × edge)) :
    (read_perturbations dflt toks e1).isSome = (read_perturbations dflt toks e2).isSome := by
  unfold read_perturbations
  rcases read_count toks with ⟨s, rest, good⟩
  simp only
  cases good
  · rfl
  · simp only [if_true]
    exact read_triples_isSome rest _ _ 0 (by rw [length_resize, length_resize])

theorem reader_frame_no_perturb (read_conf : String → config → config × Bool)
    (sanitise_conf : config → config) (dflt : Nat × edge) (fs : String → Option tokens)
    (g_present : Bool) (st : reader_state) (fr : frame)
    (hd : fr.diff = "-" ∨ g_present = false) (r : reader_state × frame_effect)
    (hr : reader_frame read_conf sanitise_conf dflt fs g_present st fr = some r) :
    r.2.perturbed = none := by
  have hd2 : (fr.diff != "-" && g_present) = false := by
    rcases hd with hd | hd
    · simp [hd]
    · simp [hd]
  unfold reader_frame reader_turn at hr
  simp only [frame.raw, read_paths, hd2] at hr
  split at hr
  · cases hr
  · simp only [Bool.false_eq_true, if_false, Option.some.injEq] at hr
    subst hr
    rfl

theorem reader_turn_of_words (read_conf : String → config → config × Bool)
    (sanitise_conf : config → config) (dflt : Nat × edge) (fs : String → Option tokens)
    (g_present : Bool) (st : reader_state) (rf : raw_frame) (q o d : String)
    (rest : List String) (hw : rf.words = q :: o :: d :: rest) :
    reader_turn read_conf sanitise_conf dflt fs g_present st rf
      = reader_frame read_conf sanitise_conf dflt fs g_present st
          { conf_record := rf.conf_record, queries := q, fifo_out := o, diff := d } := by
  unfold reader_frame reader_turn
  simp only [frame.raw, hw, read_paths]

/-- C13, the claim as stated fails, in three ways. The frame `short_frame`,
whose queries file declares two requests and holds one, yields the query
vector `[1, 2, 0, 0]` when it is the first frame received and `[1, 2, 7, 8]`
when it comes after `first_frame`, whose second request was `(7, 8)`. An
opening of the FIFO that delivers no path is dropped when it comes first and
replays the queries of `first_frame` when it comes after it. And with a graph
and a diff path other than `-`, the frame `first_diff_frame`, whose queries
file holds the two requests it declares, hands `g->perturb` a list whose second
element is default-constructed when the frame comes first, and left over from
`long_diff_frame` when it comes after it. -/
theorem stale_query_vector :
    stale_fs short_frame.queries = some [2, 1, 2]
      ∧ (reader_run sample_read_conf id (0, ⟨0, 0⟩) stale_fs false
            (initial_state single_conf) [short_frame]).map
          (fun r => r.2.map (fun eff => eff.query_vector))
        = some [some [1, 2, 0, 0]]
      ∧ (reader_run sample_read_conf id (0, ⟨0, 0⟩) stale_fs false
            (initial_state single_conf) [first_frame, short_frame]).map
          (fun r => r.2.map (fun eff => eff.query_vector))
        = some [some [5, 6, 7, 8], some [1, 2, 7, 8]]
      ∧ (reader_loop sample_read_conf id (0, ⟨0, 0⟩) stale_fs false
            (initial_state single_conf) [truncated_frame]).map
          (fun r => r.2.map (fun eff => eff.query_vector))
        = some [none]
      ∧ (reader_loop sample_read_conf id (0, ⟨0, 0⟩) stale_fs false
            (initial_state single_conf) [first_frame.raw, truncated_frame]).map
          (fun r => r.2.map (fun eff => eff.query_vector))
        = some [some [5, 6, 7, 8], some [5, 6, 7, 8]]
      ∧ (complete_fs first_diff_frame.queries).map pairs_complete = some true
      ∧ (reader_run sample_read_conf id (0, ⟨0, 0⟩) complete_fs true
            (initial_state single_conf) [first_diff_frame]).map
          (fun r => r.2.map (fun eff => eff.perturbed))
        = some [some [(5, ⟨6, 7⟩), (0, ⟨0, 0⟩)]]
      ∧ (reader_run sample_read_conf id (0, ⟨0, 0⟩) complete_fs true
            (initial_state single_conf) [long_diff_frame, first_diff_frame]).map
          (fun r => r.2.map (fun eff => eff.perturbed))
        = some [some [(1, ⟨2, 3⟩), (4, ⟨5, 6⟩), (0, ⟨0, 0⟩)],
            some [(5, ⟨6, 7⟩), (4, ⟨5, 6⟩)]] := by
  refine ⟨by decide, by decide, by decide, by decide, by decide, by decide, by decide,
    by decide⟩

/-- C13, amended. For every opening of the FIFO that delivers the three paths
and whose queries file, when it can be opened, holds at least the pairs it
declares, the query vector handed to `run_search` is the same whatever state
the earlier frames left in `reader` (and the turn throws in the one run exactly
when it throws in the other); when moreover the diff path is `-` or there is no
graph, `g->perturb` is called in neither run. -/
theorem query_vector_independent (read_conf : String → config → config × Bool)
    (sanitise_conf : config → config) (dflt : Nat × edge) (fs : String → Option tokens)
    (g_present : Bool) (st1 st2 : reader_state) (rf : raw_frame) (q o d : String)
    (rest : List String) (hw : rf.words = q :: o :: d :: rest)
    (hq : ∀ toks, fs q = some toks → pairs_complete toks = true) :
    (reader_turn read_conf sanitise_conf dflt fs g_present st1 rf).map
          (fun r => r.2.query_vector)
        = (reader_turn read_conf sanitise_conf dflt fs g_present st2 rf).map
          (fun r => r.2.query_vector)
      ∧ ((d = "-" ∨ g_present = false) →
          (reader_turn read_conf sanitise_conf dflt fs g_present st1 rf).map
              (fun r => r.2.perturbed) = (reader_turn read_conf sanitise_conf dflt fs
                g_present st1 rf).map (fun _ => none)
            ∧ (reader_turn read_conf sanitise_conf dflt fs g_present st1 rf).map
                (fun r => r.2.perturbed)
              = (reader_turn read_conf sanitise_conf dflt fs g_present st2 rf).map
                (fun r => r.2.perturbed)) := by
  rw [reader_turn_of_words _ _ _ _ _ st1 rf q o d rest hw,
    reader_turn_of_words _ _ _ _ _ st2 rf q o d rest hw]
  have hqv :
      (reader_frame read_conf sanitise_conf dflt fs g_present st1
          { conf_record := rf.conf_record, queries := q, fifo_out := o, diff := d }).map
          (fun r => r.2.query_vector)
        = (reader_frame read_conf sanitise_conf dflt fs g_present st2
          { conf_record := rf.conf_record, queries := q, fifo_out := o, diff := d }).map
          (fun r => r.2.query_vector) := by
    rcases hfs : fs q with _ | toks
    · rw [reader_frame_bad_queries _ _ _ _ _ st1 _ hfs,
        reader_frame_bad_queries _ _ _ _ _ st2 _ hfs]
      rfl
    · rw [reader_frame_query_vector _ _ _ _ _ st1 _ toks hfs,
        reader_frame_query_vector _ _ _ _ _ st2 _ toks hfs,
        read_queries_independent toks st1.lines st2.lines (hq toks hfs),
        read_perturbations_isSome dflt toks st1.edges st2.edges]
  refine ⟨hqv, ?_⟩
  intro hd
  have hp1 := reader_frame_no_perturb read_conf sanitise_conf dflt fs g_present st1
    { conf_record := rf.conf_record, queries := q, fifo_out := o, diff := d } hd
  have hp2 := reader_frame_no_perturb read_conf sanitise_conf dflt fs g_present st2
    { conf_record := rf.conf_record, queries := q, fifo_out := o, diff := d } hd
  rcases h1 : reader_frame read_conf sanitise_conf dflt fs g_present st1
      { conf_record := rf.conf_record, queries := q, fifo_out := o, diff := d } with _ | r1
  · rcases h2 : reader_frame read_conf sanitise_conf dflt fs g_present st2
        { conf_record := rf.conf_record, queries := q, fifo_out := o, diff := d } with _ | r2
    · exact ⟨rfl, rfl⟩
    · rw [h1, h2] at hqv
      cases hqv
  · rcases h2 : reader_frame read_conf sanitise_conf dflt fs g_present st2
        { conf_record := rf.conf_record, queries := q, fifo_out := o, diff := d } with _ | r2
    · rw [h1, h2] at hqv
      cases hqv
    · simp only [Option.map_some', hp1 r1 h1, hp2 r2 h2, and_self]

/-- Witness of C13: the frame `first_frame`, whose queries file holds the two
requests it declares, after two different histories. -/
theorem query_vector_independent_witness :
    first_frame.raw.words = "first.txt" :: "out.csv" :: "-" :: []
      ∧ (∀ toks, stale_fs "first.txt" = some toks → pairs_complete toks = true)
      ∧ (reader_turn sample_read_conf id (0, ⟨0, 0⟩) stale_fs false
            (initial_state single_conf) first_frame.raw).map (fun r => r.2.query_vector)
        = (reader_turn sample_read_conf id (0, ⟨0, 0⟩) stale_fs false
            { conf := alloc_conf, fifo_out := "old.csv", queries := "second.txt",
              diff := "diff.txt", lines := [1, 2, 7, 8, 9, 9], edges := [(0, ⟨1, 1⟩)] }
            first_frame.raw).map (fun r => r.2.query_vector) :=
  ⟨rfl, by intro toks h; cases h; decide,
    (query_vector_independent sample_read_conf id (0, ⟨0, 0⟩) stale_fs false
      (initial_state single_conf)
      { conf := alloc_conf, fifo_out := "old.csv", queries := "second.txt",
        diff := "diff.txt", lines := [1, 2, 7, 8, 9, 9], edges := [(0, ⟨1, 1⟩)] }
      first_frame.raw "first.txt" "out.csv" "-" [] rfl
      (by intro toks h; cases h; decide)).1⟩

theorem flatMap_const_nil {α β : Type} (L : List α) :
    L.flatMap (fun _ => ([] : List β)) = [] := by
  induction L with
  | nil => rfl
  | cons a L ih => simp [List.flatMap_cons]

/-- C15, the claim as stated fails: under a configuration with `no_cache` set
and a graph, each of the two threads of `run_search` calls `g->perturb` after
the team is dispatched and before it is joined. -/
theorem perturb_inside_region :
    no_cache_conf.no_cache = true
      ∧ run_search_events no_cache_conf true
          = [server_event.dispatch, server_event.thread_perturb 0,
              server_event.thread_perturb 1, server_event.join]
      ∧ no_perturb_inside false (run_search_events no_cache_conf true) = false
      ∧ run_search_perturbs no_cache_conf true = 2 := by
  refine ⟨by decide, by decide, by decide, by decide⟩

/-- C15, amended. For every turn of the loop of `reader` whose search, if any,
runs under a configuration with `no_cache` unset (or without a graph), no call
of `perturb` lies between the dispatch of the team and its join: the events of
`run_search` are the dispatch and the join alone, and the only call of
`perturb` of the turn is the one of `reader`, before the dispatch. -/
theorem no_perturb_without_no_cache (g_present : Bool) (eff : frame_effect)
    (hconf : ∀ x, eff.searched = some x → x.1.no_cache = false ∨ g_present = false) :
    no_perturb_inside false (frame_events g_present eff) = true
      ∧ (∀ x, eff.searched = some x →
          run_search_events x.1 g_present = [server_event.dispatch, server_event.join]
            ∧ run_search_perturbs x.1 g_present = 0)
      ∧ frame_events g_present eff
          = (match eff.perturbed with
              | some patches => [server_event.reader_perturb patches]
              | none => [])
            ++ (match eff.searched with
              | some _ => [server_event.dispatch, server_event.join]
              | none => []) := by
  have hev : ∀ x, eff.searched = some x →
      run_search_events x.1 g_present = [server_event.dispatch, server_event.join]
        ∧ run_search_perturbs x.1 g_present = 0 := by
    intro x hx
    have hc : (x.1.no_cache && g_present) = false := by
      rcases hconf x hx with h | h <;> simp [h]
    simp [run_search_events, run_search_perturbs, hc, flatMap_const_nil]
  refine ⟨?_, hev, ?_⟩
  · unfold frame_events
    rcases hs : eff.searched with _ | ⟨conf, out, lines⟩
    · rcases eff.perturbed with _ | patches <;> simp [no_perturb_inside]
    · have h := (hev (conf, out, lines) hs).1
      simp only at h
      simp only [h]
      rcases eff.perturbed with _ | patches <;> rfl
  · unfold frame_events
    rcases hs : eff.searched with _ | ⟨conf, out, lines⟩
    · rfl
    · have h := (hev (conf, out, lines) hs).1
      simp only at h
      simp [h]

/-- Witness of C15: a turn that perturbs one edge and then searches two
requests under a configuration with `no_cache` unset. -/
theorem no_perturb_without_no_cache_witness :
    (∀ x, (some (alloc_conf, "out.csv", [0, 3, 1, 2]) : Option (config × String × List Nat))
        = some x → x.1.no_cache = false ∨ true = false)
      ∧ no_perturb_inside false
          (frame_events true
            { perturbed := some [(0, ⟨1, 100⟩)],
              searched := some (alloc_conf, "out.csv", [0, 3, 1, 2]) }) = true :=
  ⟨by intro x h; cases h; exact Or.inl rfl,
    (no_perturb_without_no_cache true
      { perturbed := some [(0, ⟨1, 100⟩)],
        searched := some (alloc_conf, "out.csv", [0, 3, 1, 2]) }
      (by intro x h; cases h; exact Or.inl rfl)).1⟩

end fifo_auto

namespace warthog

theorem filter_all_eq_filter_bb_only (p : fch_dfs_expansion_policy) (node_idx edge_idx : Nat) :
    p.filter_all node_idx edge_idx = p.filter_bb_only node_idx edge_idx := rfl

/-- C16. FCH-DFS edge filter, evaluated on two policies. When the target's id is
outside the edge's id range but its `(x, y)` is inside the bounding box,
`filter_all` returns false (the edge is kept); when the id is inside the range
but `(x, y)` is outside the box, `filter_all` returns true (the edge is
pruned): `filter_all` tests the bounding box only, as `filter_bb_only` does. -/
theorem filter_all_sample :
    ((outside_range_policy.lab_ 0 0).rank_.contains outside_range_policy.t_label = false
        ∧ outside_range_policy.filter_all 0 0 = false)
      ∧ ((inside_range_policy.lab_ 0 0).rank_.contains inside_range_policy.t_label = true
        ∧ inside_range_policy.filter_all 0 0 = true)
      ∧ outside_range_policy.filter_bb_only 0 0
          = !((outside_range_policy.lab_ 0 0).bbox_.contains 3 3)
      ∧ inside_range_policy.filter_bb_only 0 0
          = !((inside_range_policy.lab_ 0 0).bbox_.contains 3 3) := by
  refine ⟨by decide, by decide, by decide, by decide⟩

end warthog

theorem mod_stride_gap (T a x : Nat) (hmod : x % T = a % T) (hlt : a < x) : a + T ≤ x := by
  have hx := Nat.div_add_mod x T
  have ha := Nat.div_add_mod a T
  have h1 : T * (a / T) < T * (x / T) := by omega
  have h2 : a / T < x / T := Nat.lt_of_mul_lt_mul_left h1
  have h3 : T * (a / T + 1) ≤ T * (x / T) := Nat.mul_le_mul_left T h2
  rw [Nat.mul_succ] at h3
  omega

theorem filter_stride_step (n T start : Nat) (hT : 1 ≤ T) (hs : start < n) :
    (List.range' start (n - start)).filter (fun i => i % T == start % T)
      = start :: (List.range' (start + T) (n - (start + T))).filter
          (fun i => i % T == start % T) := by
  apply sorted_nodup_ext
  · exact (List.pairwise_lt_range' _ _).filter _
  · rw [List.Sorted, List.pairwise_cons]
    refine ⟨?_, (List.pairwise_lt_range' _ _).filter _⟩
    intro y hy
    simp only [List.mem_filter, List.mem_range'_1] at hy
    omega
  · intro x
    simp only [List.mem_filter, List.mem_range'_1, List.mem_cons, beq_iff_eq]
    constructor
    · rintro ⟨⟨h1, h2⟩, h3⟩
      by_cases hx : x = start
      · exact Or.inl hx
      · have hg := mod_stride_gap T start x h3 (by omega)
        exact Or.inr ⟨⟨hg, by omega⟩, h3⟩
    · rintro (h | ⟨⟨h1, h2⟩, h3⟩)
      · subst h
        exact ⟨⟨le_refl _, by omega⟩, rfl⟩
      · exact ⟨⟨by omega, by omega⟩, h3⟩

theorem filter_stride_range (n T t : Nat) (ht : t < T) :
    (List.range' t (n - t)).filter (fun i => i % T == t % T)
      = (List.range n).filter (fun i => i % T == t) := by
  have htm : t % T = t := Nat.mod_eq_of_lt ht
  apply sorted_nodup_ext
  · exact (List.pairwise_lt_range' _ _).filter _
  · exact (List.sorted_lt_range n).filter _
  · intro x
    simp only [List.mem_filter, List.mem_range'_1, List.mem_range, beq_iff_eq, htm]
    have hle := Nat.mod_le x T
    constructor
    · rintro ⟨⟨h1, h2⟩, h3⟩
      exact ⟨by omega, h3⟩
    · rintro ⟨h1, h3⟩
      exact ⟨⟨by omega, by omega⟩, h3⟩

namespace make_cpd_auto

theorem make_cpd_loop_eq (nodes : List Nat) (T : Nat) (hT : 1 ≤ T)
    (hsz : nodes.length + T ≤ 2 ^ 64) :
    ∀ (fuel start c : Nat), nodes.length - start < fuel → c < 2 ^ 32 →
      make_cpd_loop nodes T fuel start c
        = some
            (((List.range' start (nodes.length - start)).filter
                (fun i => i % T == start % T)).map (fun i => nodes.getD i 0),
              (c + ((List.range' start (nodes.length - start)).filter
                (fun i => i % T == start % T)).length) % 2 ^ 32) := by
  intro fuel
  induction fuel with
  | zero =>
    intro start c h _
    omega
  | succ fuel ih =>
    intro start c hf hc
    unfold make_cpd_loop
    by_cases hs : start < nodes.length
    · have hmod : (start + T) % 2 ^ 64 = start + T := Nat.mod_eq_of_lt (by omega)
      have hres : (start + T) % T = start % T := Nat.add_mod_right _ _
      rw [if_pos hs, List.getElem?_eq_getElem hs, hmod,
        ih (start + T) ((c + 1) % 2 ^ 32) (by omega) (Nat.mod_lt _ (by decide)),
        filter_stride_step nodes.length T start hT hs, hres]
      simp only [List.map_cons, List.length_cons, Option.some.injEq, Prod.mk.injEq]
      refine ⟨?_, by omega⟩
      congr 1
      simp [List.getD_eq_getElem?_getD, List.getElem?_eq_getElem hs]
    · rw [if_neg hs]
      have h0 : nodes.length - start = 0 := by omega
      simp only [h0, List.range'_zero, List.filter_nil, List.map_nil, List.length_nil,
        Nat.add_zero]
      rw [Nat.mod_eq_of_lt hc]

theorem make_cpd_thread_eq (nodes : List Nat) (T nlisteners fuel t c : Nat) (hT : 1 ≤ T)
    (ht : t < T) (hl : T ≤ nlisteners) (hsz : nodes.length + T ≤ 2 ^ 64)
    (hfuel : nodes.length < fuel) (hc : c < 2 ^ 32) :
    make_cpd_thread nodes nlisteners T fuel t c
      = some
          (((List.range nodes.length).filter (fun i => i % T == t)).map
              (fun i => nodes.getD i 0),
            (c + ((List.range nodes.length).filter (fun i => i % T == t)).length) % 2 ^ 32) := by
  unfold make_cpd_thread
  rw [if_pos (by omega), make_cpd_loop_eq nodes T hT hsz fuel t c (by omega) hc,
    filter_stride_range nodes.length T t ht]

theorem make_cpd_region_eq (nodes : List Nat) (T nlisteners fuel : Nat) (hT : 1 ≤ T)
    (hl : T ≤ nlisteners) (hsz : nodes.length + T ≤ 2 ^ 64) (hfuel : nodes.length < fuel) :
    ∀ (L : List Nat) (c : Nat), (∀ t ∈ L, t < T) → c < 2 ^ 32 →
      make_cpd_region nodes nlisteners T fuel L c
        = some
            (L.map (fun t =>
                ((List.range nodes.length).filter (fun i => i % T == t)).map
                  (fun i => nodes.getD i 0)),
              (c + (L.flatMap (fun t =>
                (List.range nodes.length).filter (fun i => i % T == t))).length) % 2 ^ 32) := by
  intro L
  induction L with
  | nil =>
    intro c _ hc
    simp only [make_cpd_region, List.map_nil, List.flatMap_nil, List.length_nil, Nat.add_zero]
    rw [Nat.mod_eq_of_lt hc]
  | cons t L ih =>
    intro c hL hc
    unfold make_cpd_region
    rw [make_cpd_thread_eq nodes T nlisteners fuel t c hT (hL t (List.mem_cons_self _ _)) hl hsz
        hfuel hc]
    simp only
    rw [ih _ (fun u hu => hL u (List.mem_cons_of_mem _ hu)) (Nat.mod_lt _ (by decide))]
    simp only [List.map_cons, List.flatMap_cons, List.length_append, Option.some.injEq,
      Prod.mk.injEq, true_and]
    omega

/-- C14. Builder source striding: with `T ≥ 1` threads (and a listener for each),
enough fuel for the loops, and `|nodes| + T` within `size_t`, the parallel
region of `make_cpd` ends normally; thread `t` computes the rows of the
sources `nodes[i]` for the indices `i < |nodes|` with `i mod T = t`, in
ascending order, the `j`-th of them being `t + j*T`; the index lists of the `T`
threads together are a rearrangement of `0 .. |nodes|-1`; and the 32-bit
counter `nprocessed` ends at `|nodes| mod 2^32`, which is `|nodes|` for fewer
than `2^32` sources. -/
theorem make_cpd_striding (nodes : List Nat) (T nlisteners fuel : Nat) (hT : 1 ≤ T)
    (hl : T ≤ nlisteners) (hsz : nodes.length + T ≤ 2 ^ 64) (hfuel : nodes.length < fuel) :
    make_cpd_region nodes nlisteners T fuel (List.range T) 0
        = some
            ((List.range T).map (fun t =>
                ((List.range nodes.length).filter (fun i => i % T == t)).map
                  (fun i => nodes.getD i 0)),
              nodes.length % 2 ^ 32)
      ∧ (∀ t, t < T → ∀ j, t + j * T < nodes.length →
          ((List.range nodes.length).filter (fun i => i % T == t))[j]? = some (t + j * T))
      ∧ (∀ t, t < T → ∀ i ∈ (List.range nodes.length).filter (fun i => i % T == t),
          i = t + (i / T) * T)
      ∧ ((List.range T).flatMap (fun t =>
            (List.range nodes.length).filter (fun i => i % T == t))).Perm
          (List.range nodes.length)
      ∧ (nodes.length < 2 ^ 32 → nodes.length % 2 ^ 32 = nodes.length) := by
  have hperm : ((List.range T).flatMap (fun t =>
      (List.range nodes.length).filter (fun i => i % T == t))).Perm
      (List.range nodes.length) := by
    refine (flatMap_filter_key_perm (fun i => i % T) _ T).trans ?_
    apply List.Perm.of_eq
    rw [List.filter_eq_self]
    intro i _
    simpa using Nat.mod_lt i hT
  refine ⟨?_, ?_, ?_, hperm, fun h => Nat.mod_eq_of_lt h⟩
  · rw [make_cpd_region_eq nodes T nlisteners fuel hT hl hsz hfuel (List.range T) 0
      (fun t ht => List.mem_range.1 ht) (by decide), hperm.length_eq, List.length_range,
      Nat.zero_add]
  · intro t ht j hj
    have hmod : (t + j * T) % T = t := by
      rw [Nat.add_mul_mod_self_right, Nat.mod_eq_of_lt ht]
    have hdiv : (t + j * T) / T = j := by
      rw [Nat.add_mul_div_right _ _ (by omega), Nat.div_eq_of_lt ht, Nat.zero_add]
    have h1 := filter_range_getElem?_countP (fun i => i % T == (t + j * T) % T) nodes.length
      (t + j * T) hj (by simp)
    rw [countP_mod_eq_div T (t + j * T) (by omega), hdiv, hmod] at h1
    exact h1
  · intro t _ i hi
    simp only [List.mem_filter, beq_iff_eq] at hi
    have h := Nat.div_add_mod i T
    rw [Nat.mul_comm] at h
    omega

/-- Witness of C14: five sources and two threads. -/
theorem make_cpd_striding_witness :
    1 ≤ 2 ∧ 2 ≤ 2 ∧ [10, 11, 12, 13, 14].length + 2 ≤ 2 ^ 64
      ∧ [10, 11, 12, 13, 14].length < 6
      ∧ make_cpd_region [10, 11, 12, 13, 14] 2 2 6 (List.range 2) 0
          = some
              ((List.range 2).map (fun t =>
                  ((List.range [10, 11, 12, 13, 14].length).filter (fun i => i % 2 == t)).map
                    (fun i => [10, 11, 12, 13, 14].getD i 0)),
                [10, 11, 12, 13, 14].length % 2 ^ 32) :=
  ⟨by decide, by decide, by decide, by decide,
    (make_cpd_striding [10, 11, 12, 13, 14] 2 2 6 (by decide) (by decide) (by decide)
      (by decide)).1⟩

/-- The parallel region of `make_cpd` on five sources with two threads: thread 0
computes the rows of sources 10, 12, 14, thread 1 those of 11, 13, and
`nprocessed` ends at 5. -/
theorem make_cpd_sample :
    make_cpd_region [10, 11, 12, 13, 14] 2 2 6 (List.range 2) 0
      = some ([[10, 12, 14], [11, 13]], 5) := by
  decide

end make_cpd_auto

namespace make_cpd_auto

theorem digitChar_toNat (k : Nat) (hk : k < 10) : (Nat.digitChar k).toNat - 48 = k := by
  interval_cases k <;> rfl

theorem toDigitsCore_fold (fuel : Nat) :
    ∀ (n : Nat) (ds : List Char), n < fuel →
      (Nat.toDigitsCore 10 fuel n ds).foldl digit_fold 0 = ds.foldl digit_fold n := by
  induction fuel with
  | zero =>
    intro n ds h
    omega
  | succ fuel ih =>
    intro n ds h
    unfold Nat.toDigitsCore
    simp only
    by_cases h0 : n / 10 = 0
    · rw [if_pos h0]
      simp only [List.foldl_cons, digit_fold, Nat.zero_mul, Nat.zero_add]
      rw [digitChar_toNat _ (Nat.mod_lt _ (by decide))]
      congr 1
      omega
    · rw [if_neg h0, ih (n / 10) _ (by omega)]
      simp only [List.foldl_cons, digit_fold]
      rw [digitChar_toNat _ (Nat.mod_lt _ (by decide))]
      congr 1
      omega

theorem toDigits_injective (a b : Nat) (h : Nat.toDigits 10 a = Nat.toDigits 10 b) : a = b := by
  have ha := toDigitsCore_fold (a + 1) a [] (by omega)
  have hb := toDigitsCore_fold (b + 1) b [] (by omega)
  unfold Nat.toDigits at h
  rw [h, hb] at ha
  simpa using ha.symm

theorem to_string_nat_injective (a b : Nat) (h : to_string (a : Int) = to_string (b : Int)) :
    a = b :=
  toDigits_injective a b h

theorem format_cpdfile_eq (graphfile outdir : List Char) (wid bid : Int) :
    format_cpdfile graphfile outdir wid bid
      = (cpd_stem graphfile outdir).map
          (fun res => res ++ "-".toList ++ to_string wid ++ "-".toList ++ to_string bid
            ++ ".cpd".toList) := by
  unfold format_cpdfile cpd_stem
  rcases substr graphfile 0 (find_last_of graphfile ['.']) with _ | res
  · rfl
  · simp only
    by_cases ho : (!outdir.isEmpty) = true
    · simp only [ho, if_true]
      rcases substr res (find_last_of res ['\\', '/']) npos with _ | tail <;> rfl
    · simp only [ho]
      rfl

theorem find_last_of_from_append (chars s1 s2 : List Char) :
    ∀ (i last : Nat),
      find_last_of_from chars (s1 ++ s2) i last
        = find_last_of_from chars s2 (i + s1.length) (find_last_of_from chars s1 i last) := by
  induction s1 with
  | nil =>
    intro i last
    rfl
  | cons c cs ih =>
    intro i last
    simp only [List.cons_append, find_last_of_from, List.length_cons]
    have h := ih (i + 1) (if chars.contains c = true then i else last)
    rw [show i + (cs.length + 1) = i + 1 + cs.length by omega]
    exact h

theorem find_last_of_cpd (x : List Char) :
    find_last_of (x ++ ".cpd".toList) ['.'] = x.length := by
  unfold find_last_of
  rw [find_last_of_from_append]
  have h : ".cpd".toList = ['.', 'c', 'p', 'd'] := rfl
  rw [h]
  simp [find_last_of_from]

theorem substr_stem (x : List Char) :
    substr (x ++ ".cpd".toList) 0 (find_last_of (x ++ ".cpd".toList) ['.']) = some x := by
  rw [find_last_of_cpd]
  simp [substr]

theorem block_back (dc : distribute.DistributeController) (b : Nat)
    (hk : 1 ≤ dc.partkey)
    (hmod : dc.method = distribute.PartMethod.MOD → dc.partkey ≤ dc.nodenum)
    (hb : b < dc.num_blocks) :
    ∃ back, (dc.block b).getLast? = some back ∧ back ∈ dc.block b
      ∧ dc.get_blockid back = b := by
  have hmem : ∃ x, x ∈ dc.block b := by
    rcases hm : dc.method with _ | _
    · refine ⟨b, (distribute.mem_block_iff dc b b hk).2 ?_⟩
      have hbk : b < dc.partkey := by
        simpa [distribute.DistributeController.num_blocks, hm] using hb
      have := hmod hm
      refine ⟨by omega, ?_⟩
      simp [distribute.DistributeController.get_blockid, hm, Nat.mod_eq_of_lt hbk]
    · refine ⟨b * dc.partkey, (distribute.mem_block_iff dc b _ hk).2 ?_⟩
      have hb2 : b < (dc.nodenum + dc.partkey - 1) / dc.partkey := by
        simpa [distribute.DistributeController.num_blocks, hm] using hb
      have h3 : (b + 1) * dc.partkey ≤ dc.nodenum + dc.partkey - 1 :=
        (Nat.le_div_iff_mul_le hk).1 hb2
      have h4 : (b + 1) * dc.partkey = b * dc.partkey + dc.partkey := by ring
      refine ⟨by omega, ?_⟩
      simp only [distribute.DistributeController.get_blockid, hm]
      exact Nat.mul_div_cancel _ hk
  obtain ⟨x, hx⟩ := hmem
  have hne : dc.block b ≠ [] := List.ne_nil_of_mem hx
  refine ⟨(dc.block b).getLast hne, List.getLast?_eq_getLast _ hne, List.getLast_mem hne, ?_⟩
  exact ((distribute.mem_block_iff dc b _ hk).1 (List.getLast_mem hne)).2

theorem main_loop_eq (dc : distribute.DistributeController)
    (xy_filename outdir partition : List Char) (partkey : Int) (bs : List Nat)
    (hback : ∀ b ∈ bs,
      ∃ back, (dc.block b).getLast? = some back ∧ dc.get_blockid back = b) :
    main_loop dc xy_filename outdir partition partkey (bs.map dc.block)
      = if bs = [] then some []
        else
          (cpd_stem xy_filename outdir).map
            (fun res => bs.map
              (fun (b : Nat) =>
                block_files_of res xy_filename partition partkey (dc.wid : Int) (b : Int))) := by
  induction bs with
  | nil => rfl
  | cons b bs ih =>
    obtain ⟨back, hb1, hb2⟩ := hback b (List.mem_cons_self _ _)
    have ih2 := ih (fun c hc => hback c (List.mem_cons_of_mem _ hc))
    simp only [List.map_cons, main_loop, hb1, hb2, format_cpdfile_eq]
    rw [if_neg (List.cons_ne_nil _ _)]
    rcases hcs : cpd_stem xy_filename outdir with _ | res
    · rfl
    · rw [hcs] at ih2
      simp only [Option.map_some']
      have hst := substr_stem
        (res ++ "-".toList ++ to_string (dc.wid : Int) ++ "-".toList ++ to_string (b : Int))
      rw [hst, ih2]
      by_cases hbs : bs = []
      · subst hbs
        rfl
      · rw [if_neg hbs]
        rfl

theorem main_files_eq (dc : distribute.DistributeController)
    (xy_filename outdir partition : List Char) (partkey : Int)
    (hk : 1 ≤ dc.partkey)
    (hmod : dc.method = distribute.PartMethod.MOD → dc.partkey ≤ dc.nodenum) :
    main_files dc xy_filename outdir partition partkey
      = if dc.worker_block_ids dc.wid = [] then some []
        else
          (cpd_stem xy_filename outdir).map
            (fun res => (dc.worker_block_ids dc.wid).map
              (fun (b : Nat) =>
                block_files_of res xy_filename partition partkey (dc.wid : Int) (b : Int))) := by
  unfold main_files distribute.DistributeController.get_own_blocks
    distribute.DistributeController.get_worker_blocks
  apply main_loop_eq
  intro b hb
  obtain ⟨back, h1, _, h3⟩ :=
    block_back dc b hk hmod ((distribute.mem_worker_block_ids dc _ b).1 hb).1
  exact ⟨back, h1, h3⟩

theorem block_files_cpd_injective (res xy partition : List Char) (partkey wid : Int)
    (a b : Nat)
    (h : (block_files_of res xy partition partkey wid a).cpd_filename
      = (block_files_of res xy partition partkey wid b).cpd_filename) : a = b := by
  simp only [block_files_of, List.append_assoc, List.append_cancel_left_eq] at h
  exact to_string_nat_injective a b (List.append_cancel_right h)

theorem block_files_config_injective (res xy partition : List Char) (partkey wid : Int)
    (a b : Nat)
    (h : (block_files_of res xy partition partkey wid a).config
      = (block_files_of res xy partition partkey wid b).config) : a = b := by
  simp only [block_files_of, List.append_assoc, List.append_cancel_left_eq] at h
  exact to_string_nat_injective a b (List.append_cancel_right h)

/-- The example of the header comment under the round-robin ownership of the
specification, for 167760 nodes, 5 workers and `DIV` with key 9000: the blocks
of the workers 0 to 4 are `[0,5,10,15]`, `[1,6,11,16]`, `[2,7,12,17]`,
`[3,8,13,18]` and `[4,9,14]`, and worker 4, run on `melb-both.xy`, writes
`melb-both-4-4.cpd`, `melb-both-4-9.cpd` and `melb-both-4-14.cpd`. -/
theorem round_robin_layout_sample :
    (List.range 5).map (fun w => (header_controller w).worker_block_ids w)
        = [[0, 5, 10, 15], [1, 6, 11, 16], [2, 7, 12, 17], [3, 8, 13, 18], [4, 9, 14]]
      ∧ (main_files (header_controller 4) "melb-both.xy".toList [] "div".toList 9000).map
            (fun files => files.map (fun f => f.cpd_filename))
          = some ["melb-both-4-4.cpd".toList, "melb-both-4-9.cpd".toList,
              "melb-both-4-14.cpd".toList] := by
  refine ⟨by decide, ?_⟩
  rw [main_files_eq _ _ _ _ _ (by decide) (by intro h; exact absurd h (by decide))]
  decide

end make_cpd_auto

namespace fifo_auto

/-- C18. Builder/server file agreement, evaluated for scenario S3 (10 nodes,
`DIV` with key 3, 2 workers) with `data/melb-both.xy` and `outdir = out`: the
server of worker 1 opens `out//melb-both-1-0.cpd`, while the builder run as
worker 1 writes `out//melb-both-1-1.cpd` and `out//melb-both-1-3.cpd`, so the
file opened is none of the files written; for worker 0 the file opened,
`out//melb-both-0-0.cpd`, is the first file written. -/
theorem server_file_sample :
    server_cpdfile make_cpd_auto.s3_worker1 "data/melb-both.xy".toList "out".toList
        = some "out//melb-both-1-0.cpd".toList
      ∧ (make_cpd_auto.main_files make_cpd_auto.s3_worker1 "data/melb-both.xy".toList
            "out".toList "div".toList 3).map
            (fun files => files.map (fun f => f.cpd_filename))
          = some ["out//melb-both-1-1.cpd".toList, "out//melb-both-1-3.cpd".toList]
      ∧ "out//melb-both-1-0.cpd".toList
          ∉ ["out//melb-both-1-1.cpd".toList, "out//melb-both-1-3.cpd".toList]
      ∧ server_cpdfile distribute.s3_controller "data/melb-both.xy".toList "out".toList
          = some "out//melb-both-0-0.cpd".toList
      ∧ (make_cpd_auto.main_files distribute.s3_controller "data/melb-both.xy".toList
            "out".toList "div".toList 3).map
            (fun files => files.map (fun f => f.cpd_filename))
          = some ["out//melb-both-0-0.cpd".toList, "out//melb-both-0-2.cpd".toList] := by
  refine ⟨by decide, by decide, by decide, by decide, by decide⟩

end fifo_auto

namespace make_cpd_auto

/-- C19, the claim as stated fails: for 2 nodes, one worker and `MOD` with key
3 the worker's blocks are `[0]`, `[1]` and an empty block, so `nodes.back()` is
taken of an empty block and the loop of `main` has no defined result. -/
theorem empty_block_sample :
    1 ≤ sparse_controller.nodenum ∧ 1 ≤ sparse_controller.partkey
      ∧ 1 ≤ sparse_controller.maxworker
      ∧ sparse_controller.get_own_blocks = [[0], [1], []]
      ∧ main_files sparse_controller "melb-both.xy".toList [] "mod".toList 3 = none := by
  refine ⟨by decide, by decide, by decide, by decide, by decide⟩

/-- C19, amended. For method `DIV` with key `k ≥ 1`, and for method `MOD` with
`1 ≤ k ≤ N`, every block of the worker is non-empty, the block id of its last
node is the block id of each of its nodes, and the CPD file names, as well as
the config file names, written by the loop of `main` are pairwise distinct. -/
theorem block_id_from_back (dc : distribute.DistributeController)
    (xy_filename outdir partition : List Char) (partkey : Int)
    (hk : 1 ≤ dc.partkey)
    (hmod : dc.method = distribute.PartMethod.MOD → dc.partkey ≤ dc.nodenum) :
    (∀ nodes ∈ dc.get_own_blocks, ∃ back, nodes.getLast? = some back
        ∧ ∀ x ∈ nodes, dc.get_blockid x = dc.get_blockid back)
      ∧ (∀ files, main_files dc xy_filename outdir partition partkey = some files →
          files.length = dc.get_own_blocks.length
            ∧ (files.map (fun f => f.cpd_filename)).Nodup
            ∧ (files.map (fun f => f.config)).Nodup) := by
  constructor
  · intro nodes hn
    obtain ⟨b, hb, rfl⟩ := List.mem_map.1 hn
    obtain ⟨back, h1, _, h3⟩ :=
      block_back dc b hk hmod ((distribute.mem_worker_block_ids dc _ b).1 hb).1
    refine ⟨back, h1, ?_⟩
    intro x hx
    rw [h3]
    exact ((distribute.mem_block_iff dc b x hk).1 hx).2
  · intro files hf
    rw [main_files_eq dc _ _ _ _ hk hmod] at hf
    have hnd : (dc.worker_block_ids dc.wid).Nodup := (List.nodup_range _).filter _
    have hlen : dc.get_own_blocks.length = (dc.worker_block_ids dc.wid).length := by
      simp [distribute.DistributeController.get_own_blocks,
        distribute.DistributeController.get_worker_blocks]
    by_cases hids : dc.worker_block_ids dc.wid = []
    · rw [if_pos hids] at hf
      cases hf
      rw [hlen, hids]
      exact ⟨rfl, List.nodup_nil, List.nodup_nil⟩
    · rw [if_neg hids] at hf
      rcases hcs : cpd_stem xy_filename outdir with _ | res
      · rw [hcs] at hf
        cases hf
      · rw [hcs] at hf
        simp only [Option.map_some', Option.some.injEq] at hf
        subst hf
        refine ⟨by rw [List.length_map, hlen], ?_, ?_⟩
        · rw [List.map_map]
          exact hnd.map_on (fun a _ b _ h => block_files_cpd_injective _ _ _ _ _ a b h)
        · rw [List.map_map]
          exact hnd.map_on (fun a _ b _ h => block_files_config_injective _ _ _ _ _ a b h)

/-- Witness of C19: worker 0 of scenario S3 on `melb-both.xy`. -/
theorem block_id_from_back_witness :
    1 ≤ distribute.s3_controller.partkey
      ∧ (distribute.s3_controller.method = distribute.PartMethod.MOD →
          distribute.s3_controller.partkey ≤ distribute.s3_controller.nodenum)
      ∧ (∀ nodes ∈ distribute.s3_controller.get_own_blocks, ∃ back,
          nodes.getLast? = some back
            ∧ ∀ x ∈ nodes, distribute.s3_controller.get_blockid x
                = distribute.s3_controller.get_blockid back)
      ∧ (∀ files, main_files distribute.s3_controller "melb-both.xy".toList [] "div".toList 3
            = some files →
          files.length = distribute.s3_controller.get_own_blocks.length
            ∧ (files.map (fun f => f.cpd_filename)).Nodup
            ∧ (files.map (fun f => f.config)).Nodup) :=
  ⟨by decide, by intro h; exact absurd h (by decide),
    block_id_from_back distribute.s3_controller "melb-both.xy".toList [] "div".toList 3
      (by decide) (by intro h; exact absurd h (by decide))⟩

/-- The files of worker 0 of scenario S3 on `melb-both.xy`: blocks 0 and 2. -/
theorem main_files_sample :
    (main_files distribute.s3_controller "melb-both.xy".toList [] "div".toList 3).map
        (fun files => files.map (fun f => (f.cpd_filename, f.config)))
      = some [("melb-both-0-0.cpd".toList, "melb-both-0-0.conf".toList),
          ("melb-both-0-2.cpd".toList, "melb-both-0-2.conf".toList)] := by
  decide

end make_cpd_auto
